import Mathlib

/-!
Verification of the `shapeshift` matching engine (`src/lib.rs` of
HumanAssisted/shapeshift-rust) against its natural-language specification.

The Rust code works on `serde_json::Value`.  We embed it shallowly:

* `Json` mirrors `serde_json::Value` (numbers as `ℚ`, which covers every
  numeric literal appearing in the repository).
* `serde_json::Map` is (by default) a `BTreeMap<String, Value>`; we model it
  as an association list kept sorted by key, with `mapGet` / `mapInsert`
  mirroring `get` / `insert` (insert replaces the value of an existing key
  in place and otherwise inserts at the sorted position).
* The `HashMap` used for the flat maps is modelled as an association list in
  insertion order with `hmInsert` replacing an existing key (`HashMap`
  iteration order is arbitrary; the model fixes it to insertion order, which
  is the flatten traversal order).
* `f64` values are modelled as real numbers; the single NaN that the code
  can produce (the `0/0` of `cosine_similarity` on a zero vector) is made
  explicit by letting `cosine_similarity` return `Option ℝ`, with `none`
  standing for NaN.
* Panicking code paths (`unwrap`, `HashMap` indexing with a missing key)
  are modelled with `Option`, `none` standing for a panic.
-/

/-- Model of `serde_json::Value`. -/
inductive Json where
  | null : Json
  | bool (b : Bool) : Json
  | num (q : ℚ) : Json
  | str (s : String) : Json
  | arr (elements : List Json) : Json
  | obj (members : List (String × Json)) : Json

mutual
/-- Boolean equality on `Json`, used to derive decidable equality. -/
def jsonBEq : Json → Json → Bool
  | .null, .null => true
  | .bool a, .bool b => a == b
  | .num a, .num b => a == b
  | .str a, .str b => a == b
  | .arr a, .arr b => jsonListBEq a b
  | .obj a, .obj b => jsonMembersBEq a b
  | _, _ => false

/-- Boolean equality on lists of `Json`. -/
def jsonListBEq : List Json → List Json → Bool
  | [], [] => true
  | a :: as, b :: bs => jsonBEq a b && jsonListBEq as bs
  | _, _ => false

/-- Boolean equality on object member lists. -/
def jsonMembersBEq : List (String × Json) → List (String × Json) → Bool
  | [], [] => true
  | (k, v) :: as, (k', v') :: bs => k == k' && jsonBEq v v' && jsonMembersBEq as bs
  | _, _ => false
end

mutual
theorem jsonBEq_eq : ∀ (a b : Json), jsonBEq a b = true ↔ a = b
  | .null, b => by cases b <;> simp [jsonBEq]
  | .bool x, b => by cases b <;> simp [jsonBEq]
  | .num x, b => by cases b <;> simp [jsonBEq]
  | .str x, b => by cases b <;> simp [jsonBEq]
  | .arr xs, b => by
    cases b <;> simp [jsonBEq]
    exact jsonListBEq_eq xs _
  | .obj ms, b => by
    cases b <;> simp [jsonBEq]
    exact jsonMembersBEq_eq ms _

theorem jsonListBEq_eq : ∀ (a b : List Json), jsonListBEq a b = true ↔ a = b
  | [], b => by cases b <;> simp [jsonListBEq]
  | x :: xs, b => by
    cases b with
    | nil => simp [jsonListBEq]
    | cons y ys => simp [jsonListBEq, jsonBEq_eq x y, jsonListBEq_eq xs ys]

theorem jsonMembersBEq_eq :
    ∀ (a b : List (String × Json)), jsonMembersBEq a b = true ↔ a = b
  | [], b => by cases b <;> simp [jsonMembersBEq]
  | (k, v) :: xs, b => by
    cases b with
    | nil => simp [jsonMembersBEq]
    | cons y ys =>
      obtain ⟨k', v'⟩ := y
      simp [jsonMembersBEq, jsonBEq_eq v v', jsonMembersBEq_eq xs ys, and_assoc]
end

instance : DecidableEq Json := fun a b => decidable_of_iff _ (jsonBEq_eq a b)

/-- Lexicographic strict order on character lists; with keys made of Unicode
scalar values this coincides with Rust's byte-wise `Ord` on `String`
(UTF-8 encoding preserves code-point order). -/
def charListLt : List Char → List Char → Bool
  | [], [] => false
  | [], _ :: _ => true
  | _ :: _, [] => false
  | a :: as, b :: bs => if a < b then true else if b < a then false else charListLt as bs

/-- Rust's `Ord` on `String`, as used by the `BTreeMap` backing
`serde_json::Map`. -/
def strLt (a b : String) : Bool := charListLt a.data b.data

/-- `BTreeMap::get` on the sorted association-list model. -/
def mapGet (m : List (String × Json)) (k : String) : Option Json :=
  match m with
  | [] => none
  | (k', v) :: rest => if k = k' then some v else mapGet rest k

/-- `BTreeMap::insert` on the sorted association-list model: replace the
value of an existing key, otherwise insert at the sorted position. -/
def mapInsert (m : List (String × Json)) (k : String) (v : Json) :
    List (String × Json) :=
  match m with
  | [] => [(k, v)]
  | (k', v') :: rest =>
    if strLt k k' then (k, v) :: (k', v') :: rest
    else if k = k' then (k, v) :: rest
    else (k', v') :: mapInsert rest k v

/-- `HashMap::insert` on the insertion-ordered association-list model:
replace the value of an existing key, otherwise append. -/
def hmInsert (m : List (String × Json)) (k : String) (v : Json) :
    List (String × Json) :=
  match m with
  | [] => [(k, v)]
  | (k', v') :: rest =>
    if k = k' then (k, v) :: rest else (k', v') :: hmInsert rest k v

/-- Splitting a character list at `'.'`, mirroring Rust's `str::split('.')`
(`""` splits to `[""]`, `"."` to `["", ""]`, `"a.b"` to `["a", "b"]`). -/
def splitDotCh : List Char → List (List Char)
  | [] => [[]]
  | c :: rest =>
    if c = '.' then [] :: splitDotCh rest
    else
      match splitDotCh rest with
      | [] => [[c]]
      | s :: ss => (c :: s) :: ss

/-- Rust's `source_key.split('.').collect::<Vec<&str>>()`. -/
def splitDot (s : String) : List String := (splitDotCh s.data).map String.mk

/-- Joining path segments with `'.'`; the inverse used to describe the flat
keys that `flatten_recursive` builds with `format!("{}.{}", ...)`. -/
def joinDot : List String → String
  | [] => ""
  | [k] => k
  | k :: k' :: rest => k ++ "." ++ joinDot (k' :: rest)

/-- Rust's `source_key.contains('.')`. -/
def containsDot (s : String) : Bool := s.data.contains '.'

mutual
/-- `Shapeshift::flatten_recursive` (src/lib.rs:58-74): objects recurse with
the dotted prefix, every non-object node is recorded as a leaf. -/
def flatten_recursive (v : Json) (pre : String)
    (flat : List (String × Json)) : List (String × Json) :=
  match v with
  | .obj members => flattenMembers members pre flat
  | _ => hmInsert flat pre v

/-- The `for (key, value) in map` loop inside `flatten_recursive`. -/
def flattenMembers (members : List (String × Json)) (pre : String)
    (flat : List (String × Json)) : List (String × Json) :=
  match members with
  | [] => flat
  | (k, w) :: rest =>
    flattenMembers rest pre
      (flatten_recursive w (if pre = "" then k else pre ++ "." ++ k) flat)
end

/-- `Shapeshift::flatten_object` (src/lib.rs:52-56). -/
def flatten_object (v : Json) : List (String × Json) :=
  flatten_recursive v "" []

/-- One key of `Shapeshift::unflatten_object`'s loop (src/lib.rs:78-91):
walk/create the chain of objects along `parts`, inserting `v` at the last
segment.  `none` models the `as_object_mut().unwrap()` panic hit when an
intermediate segment is already bound to a non-object. -/
def insertFlatParts (m : List (String × Json)) (parts : List String)
    (v : Json) : Option (List (String × Json)) :=
  match parts with
  | [] => some m
  | [p] => some (mapInsert m p v)
  | p :: rest =>
    match mapGet m p with
    | some (.obj inner) =>
      (insertFlatParts inner rest v).map (fun inner2 => mapInsert m p (.obj inner2))
    | some _ => none
    | none =>
      (insertFlatParts [] rest v).map (fun inner2 => mapInsert m p (.obj inner2))

/-- `Shapeshift::unflatten_object` (src/lib.rs:76-94). -/
def unflatten_object (flat : List (String × Json)) : Option Json :=
  (flat.foldl (fun acc kv => acc.bind (fun m => insertFlatParts m (splitDot kv.1) kv.2))
      (some [])).map Json.obj

/-- The body of `insert_nested` (src/lib.rs:124-141) after splitting the key:
unlike `unflatten_object` it never panics, overwriting a non-object
intermediate with a fresh object. -/
def insertNestedParts (cur : Json) (parts : List String) (nv : Json) : Json :=
  match parts with
  | [] => cur
  | [p] =>
    match cur with
    | .obj m => .obj (mapInsert m p nv)
    | _ => .obj [(p, nv)]
  | p :: rest =>
    let m := match cur with
      | .obj m => m
      | _ => ([] : List (String × Json))
    match mapGet m p with
    | some child => .obj (mapInsert m p (insertNestedParts child rest nv))
    | none => .obj (mapInsert m p (insertNestedParts (.obj []) rest nv))

/-- `insert_nested` (src/lib.rs:124-141). -/
def insert_nested (value : Json) (key : String) (nv : Json) : Json :=
  insertNestedParts value (splitDot key) nv

/-- `get_embeddings` (src/lib.rs:198-210), the deterministic mock embedding
provider bundled with the repository. -/
noncomputable def get_embeddings (text : String) : List ℝ :=
  if text = "name" ∨ text = "full_name" then [0.9, 0.1, 0, 0, 0]
  else if text = "age" ∨ text = "years_old" then [0, 0.9, 0.1, 0, 0]
  else if text = "city" ∨ text = "location.city" then [0, 0, 0.9, 0.1, 0]
  else if text = "country" ∨ text = "location.country" then [0, 0, 0.1, 0.9, 0]
  else if text = "location" then [0, 0, 0.7, 0.3, 0]
  else [0.2, 0.2, 0.2, 0.2, 0.2]

/-- `Shapeshift::cosine_similarity` (src/lib.rs:29-34).  The `f64` division
`dot / (magnitude1 * magnitude2)` is NaN exactly when the denominator is `0`
(a zero denominator forces a zero numerator, giving `0/0`); `none` models
that NaN, every other outcome is the real quotient. -/
noncomputable def cosine_similarity (vec1 vec2 : List ℝ) : Option ℝ :=
  let dp := ((vec1.zip vec2).map (fun p => p.1 * p.2)).sum
  let magnitude1 := Real.sqrt ((vec1.map (fun x => x * x)).sum)
  let magnitude2 := Real.sqrt ((vec2.map (fun x => x * x)).sum)
  if magnitude1 * magnitude2 = 0 then none
  else some (dp / (magnitude1 * magnitude2))

/-- Rust's `a.partial_cmp(&b).unwrap_or(Ordering::Equal)` on `f64`
(src/lib.rs:41): a NaN on either side compares `Equal`. -/
noncomputable def rcmp (a b : Option ℝ) : Ordering :=
  match a, b with
  | some x, some y => if x < y then .lt else if y < x then .gt else .eq
  | _, _ => .eq

/-- One step of Rust's `Iterator::max_by` fold (`core::cmp::max_by`): the
accumulator survives only when it compares strictly `Greater`, so on ties
(and on NaN, which compares `Equal`) the later element wins. -/
noncomputable def maxStep (acc y : ℕ × Option ℝ) : ℕ × Option ℝ :=
  if rcmp acc.2 y.2 = .gt then acc else y

/-- Rust's `Iterator::max_by` with comparator `rcmp`: a left fold of
`maxStep`, so the last of several maxima wins; `none` on an empty
iterator. -/
noncomputable def maxBy (l : List (ℕ × Option ℝ)) : Option (ℕ × Option ℝ) :=
  match l with
  | [] => none
  | x :: xs => some (xs.foldl maxStep x)

/-- `Shapeshift::find_closest_match` (src/lib.rs:36-50).  NB the parameter
names follow the source, where `source_embedding` is in fact the target
key's embedding and `target_embeddings` the source batch at the call site
(src/lib.rs:150). -/
noncomputable def find_closest_match (threshold : ℝ)
    (source_embedding : List ℝ) (target_embeddings : List (List ℝ)) : Option ℕ :=
  let scored := target_embeddings.enum.map
    (fun p => (p.1, cosine_similarity source_embedding p.2))
  match maxBy scored with
  | none => none
  | some (index, similarity) =>
    match similarity with
    | some s => if threshold ≤ s then some index else none
    | none => none

/-- serde_json's `Value` indexing `current[part]` for shared references
(src/lib.rs:161): a present object member, `Null` otherwise (also on
non-objects). -/
def valueIndex (v : Json) (k : String) : Json :=
  match v with
  | .obj m => (mapGet m k).getD .null
  | _ => .null

/-- The value-retrieval step of the match loop (src/lib.rs:156-166): a
dotted source key is looked up by indexing the flat `HashMap` with its first
path segment — `none` models the `HashMap` index panic when that segment is
not a key — then the remaining segments index into the found `Value`; an
undotted key is fetched with `get(...).cloned().unwrap_or(Null)`. -/
def retrieveValue (flat_source : List (String × Json)) (source_key : String) :
    Option Json :=
  if containsDot source_key then
    let parts := splitDot source_key
    match mapGet flat_source (parts.headD "") with
    | none => none
    | some v0 => some (parts.tail.foldl valueIndex v0)
  else
    some ((mapGet flat_source source_key).getD .null)

/-- The `for (target_idx, target_key) in target_keys.iter().enumerate()`
loop of `Shapeshift::shapeshift` (src/lib.rs:147-181), carrying the result
accumulator and the `used_source_keys` set. -/
noncomputable def processTargets (threshold : ℝ)
    (flat_source : List (String × Json)) (source_keys : List String)
    (source_embeddings target_embeddings : List (List ℝ)) :
    List (ℕ × String) → Json → List String → Option (Json × List String)
  | [], transformed, used => some (transformed, used)
  | (target_idx, target_key) :: rest, transformed, used =>
    if target_idx < target_embeddings.length then
      match find_closest_match threshold (target_embeddings.getD target_idx [])
          source_embeddings with
      | some idx =>
        let source_key := source_keys.getD idx ""
        if source_key ∈ used then
          processTargets threshold flat_source source_keys source_embeddings
            target_embeddings rest (insert_nested transformed target_key .null) used
        else
          match retrieveValue flat_source source_key with
          | none => none
          | some v =>
            processTargets threshold flat_source source_keys source_embeddings
              target_embeddings rest (insert_nested transformed target_key v)
              (source_key :: used)
      | none =>
        processTargets threshold flat_source source_keys source_embeddings
          target_embeddings rest (insert_nested transformed target_key .null) used
    else
      processTargets threshold flat_source source_keys source_embeddings
        target_embeddings rest (insert_nested transformed target_key .null) used

/-- The non-`result` fields of the JSON object `shapeshift` returns
(src/lib.rs:186-194). -/
structure ShapeshiftOutput where
  result : Json
  source_keys : List String
  target_keys : List String
  source_embeddings : List (List ℝ)
  target_embeddings : List (List ℝ)

/-- `Shapeshift::shapeshift` (src/lib.rs:96-195).  `none` models a panic
(the only reachable one is the flat-map index in `retrieveValue`). -/
noncomputable def shapeshift (threshold : ℝ) (source_obj target_obj : Json) :
    Option ShapeshiftOutput :=
  let flat_source := flatten_object source_obj
  let flat_target := flatten_object target_obj
  let source_keys := flat_source.map Prod.fst
  let target_keys := flat_target.map Prod.fst
  let source_embeddings := source_keys.map get_embeddings
  let target_embeddings := target_keys.map get_embeddings
  match processTargets threshold flat_source source_keys source_embeddings
      target_embeddings target_keys.enum (.obj []) [] with
  | none => none
  | some (transformed, _) =>
    some ⟨transformed, source_keys, target_keys, source_embeddings, target_embeddings⟩

/-- The decision the loop body (src/lib.rs:147-181) takes for one target
key: the source key whose value will populate the leaf, or `none` when the
leaf is set to `null` (index out of bounds, no match above threshold, or
best match already used). -/
noncomputable def matchStep (threshold : ℝ) (source_keys : List String)
    (source_embeddings target_embeddings : List (List ℝ))
    (used : List String) (target_idx : ℕ) : Option String :=
  if target_idx < target_embeddings.length then
    match find_closest_match threshold (target_embeddings.getD target_idx [])
        source_embeddings with
    | some idx =>
      let source_key := source_keys.getD idx ""
      if source_key ∈ used then none else some source_key
    | none => none
  else none

/-- The match decisions of the loop (src/lib.rs:147-181), keeping for each
target key the source key whose value populates it (`none` when the leaf is
set to `null`).  This is the loop with the result accumulator projected
away; value retrieval (and hence the panic) does not influence it. -/
noncomputable def matchTrace (threshold : ℝ) (source_keys : List String)
    (source_embeddings target_embeddings : List (List ℝ)) :
    List (ℕ × String) → List String → List (String × Option String)
  | [], _ => []
  | (target_idx, target_key) :: rest, used =>
    match matchStep threshold source_keys source_embeddings target_embeddings
        used target_idx with
    | some source_key =>
      (target_key, some source_key) ::
        matchTrace threshold source_keys source_embeddings target_embeddings rest
          (source_key :: used)
    | none =>
      (target_key, none) ::
        matchTrace threshold source_keys source_embeddings target_embeddings rest used

/-! ### Evaluation lemmas for the similarity scorer -/

theorem cosine_similarity_eq {vec1 vec2 : List ℝ} {a b d : ℝ}
    (ha : (vec1.map (fun x => x * x)).sum = a)
    (hb : (vec2.map (fun x => x * x)).sum = b)
    (hd : ((vec1.zip vec2).map (fun p => p.1 * p.2)).sum = d)
    (hapos : 0 < a) (hbpos : 0 < b) :
    cosine_similarity vec1 vec2 = some (d / (Real.sqrt a * Real.sqrt b)) := by
  have hne : Real.sqrt a * Real.sqrt b ≠ 0 :=
    mul_ne_zero (Real.sqrt_pos.mpr hapos).ne' (Real.sqrt_pos.mpr hbpos).ne'
  simp only [cosine_similarity, ha, hb, hd, if_neg hne]

/-- When both vectors have the same sum of squares `a > 0`, the denominator
collapses to `a` itself and the similarity is rational in the entries. -/
theorem cosine_similarity_same {vec1 vec2 : List ℝ} {a d : ℝ}
    (ha : (vec1.map (fun x => x * x)).sum = a)
    (hb : (vec2.map (fun x => x * x)).sum = a)
    (hd : ((vec1.zip vec2).map (fun p => p.1 * p.2)).sum = d)
    (hapos : 0 < a) :
    cosine_similarity vec1 vec2 = some (d / a) := by
  rw [cosine_similarity_eq ha hb hd hapos hapos, Real.mul_self_sqrt hapos.le]

theorem rcmp_eq_gt_iff {x y : ℝ} : rcmp (some x) (some y) = .gt ↔ y < x := by
  simp only [rcmp]
  split_ifs with h1 h2
  · simp [lt_asymm h1]
  · simp [h2]
  · simp [lt_asymm, not_lt.mp h2]

/-- All-arguments-explicit packaging of `cosine_similarity_same` for
evaluating concrete similarities. -/
theorem cos_same_eval (v w : List ℝ) (a d r : ℝ)
    (ha : (v.map (fun x => x * x)).sum = a)
    (hb : (w.map (fun x => x * x)).sum = a)
    (hd : ((v.zip w).map (fun p => p.1 * p.2)).sum = d)
    (hpos : 0 < a) (hr : d / a = r) :
    cosine_similarity v w = some r := by
  rw [cosine_similarity_same ha hb hd hpos, hr]

example : cosine_similarity [(0 : ℝ), 0] [1, 0] = none := by
  simp [cosine_similarity]

example : find_closest_match 0.5 [(1 : ℝ), 0] [[1, 0], [1, 0]] = some 1 := by
  have h : cosine_similarity [(1 : ℝ), 0] [1, 0] = some 1 :=
    cos_same_eval _ _ 1 1 _ (by norm_num) (by norm_num) (by norm_num) (by norm_num)
      (by norm_num)
  simp only [find_closest_match, List.enum, List.enumFrom, List.map, maxBy,
    maxStep, List.foldl, h, rcmp_eq_gt_iff, lt_self_iff_false, if_false]
  norm_num

/-! ### The mock embeddings at the keys occurring in the scenarios -/

theorem emb_name : get_embeddings "name" = [0.9, 0.1, 0, 0, 0] := by
  simp [get_embeddings]

theorem emb_full_name : get_embeddings "full_name" = [0.9, 0.1, 0, 0, 0] := by
  simp [get_embeddings]

theorem emb_age : get_embeddings "age" = [0, 0.9, 0.1, 0, 0] := by
  simp [get_embeddings]

theorem emb_years_old : get_embeddings "years_old" = [0, 0.9, 0.1, 0, 0] := by
  simp [get_embeddings]

theorem emb_city : get_embeddings "city" = [0, 0, 0.9, 0.1, 0] := by
  simp [get_embeddings]

theorem emb_location_city : get_embeddings "location.city" = [0, 0, 0.9, 0.1, 0] := by
  simp [get_embeddings]

theorem emb_location_country :
    get_embeddings "location.country" = [0, 0, 0.1, 0.9, 0] := by
  simp [get_embeddings]

theorem emb_location : get_embeddings "location" = [0, 0, 0.7, 0.3, 0] := by
  simp [get_embeddings]

/-! ### `find_closest_match` at the exact-rename scenario, threshold 0.95;
source batch [age, city, name] (sorted flat-key order). -/

theorem fcm_scenario_full_name :
    find_closest_match 0.95 [(0.9 : ℝ), 0.1, 0, 0, 0]
      [[0, 0.9, 0.1, 0, 0], [0, 0, 0.9, 0.1, 0], [0.9, 0.1, 0, 0, 0]] = some 2 := by
  have h0 : cosine_similarity [(0.9 : ℝ), 0.1, 0, 0, 0] [0, 0.9, 0.1, 0, 0] =
      some (9 / 82) :=
    cos_same_eval _ _ 0.82 0.09 _ (by norm_num) (by norm_num) (by norm_num)
      (by norm_num) (by norm_num)
  have h1 : cosine_similarity [(0.9 : ℝ), 0.1, 0, 0, 0] [0, 0, 0.9, 0.1, 0] =
      some 0 :=
    cos_same_eval _ _ 0.82 0 _ (by norm_num) (by norm_num) (by norm_num)
      (by norm_num) (by norm_num)
  have h2 : cosine_similarity [(0.9 : ℝ), 0.1, 0, 0, 0] [0.9, 0.1, 0, 0, 0] =
      some 1 :=
    cos_same_eval _ _ 0.82 0.82 _ (by norm_num) (by norm_num) (by norm_num)
      (by norm_num) (by norm_num)
  simp only [find_closest_match, List.enum, List.enumFrom, List.map, maxBy,
    maxStep, List.foldl, h0, h1, h2, rcmp_eq_gt_iff]
  norm_num [rcmp_eq_gt_iff]

theorem fcm_scenario_location_city :
    find_closest_match 0.95 [(0 : ℝ), 0, 0.9, 0.1, 0]
      [[0, 0.9, 0.1, 0, 0], [0, 0, 0.9, 0.1, 0], [0.9, 0.1, 0, 0, 0]] = some 1 := by
  have h0 : cosine_similarity [(0 : ℝ), 0, 0.9, 0.1, 0] [0, 0.9, 0.1, 0, 0] =
      some (9 / 82) :=
    cos_same_eval _ _ 0.82 0.09 _ (by norm_num) (by norm_num) (by norm_num)
      (by norm_num) (by norm_num)
  have h1 : cosine_similarity [(0 : ℝ), 0, 0.9, 0.1, 0] [0, 0, 0.9, 0.1, 0] =
      some 1 :=
    cos_same_eval _ _ 0.82 0.82 _ (by norm_num) (by norm_num) (by norm_num)
      (by norm_num) (by norm_num)
  have h2 : cosine_similarity [(0 : ℝ), 0, 0.9, 0.1, 0] [0.9, 0.1, 0, 0, 0] =
      some 0 :=
    cos_same_eval _ _ 0.82 0 _ (by norm_num) (by norm_num) (by norm_num)
      (by norm_num) (by norm_num)
  simp only [find_closest_match, List.enum, List.enumFrom, List.map, maxBy,
    maxStep, List.foldl, h0, h1, h2, rcmp_eq_gt_iff]
  norm_num [rcmp_eq_gt_iff]

theorem fcm_scenario_location_country :
    find_closest_match 0.95 [(0 : ℝ), 0, 0.1, 0.9, 0]
      [[0, 0.9, 0.1, 0, 0], [0, 0, 0.9, 0.1, 0], [0.9, 0.1, 0, 0, 0]] = none := by
  have h0 : cosine_similarity [(0 : ℝ), 0, 0.1, 0.9, 0] [0, 0.9, 0.1, 0, 0] =
      some (1 / 82) :=
    cos_same_eval _ _ 0.82 0.01 _ (by norm_num) (by norm_num) (by norm_num)
      (by norm_num) (by norm_num)
  have h1 : cosine_similarity [(0 : ℝ), 0, 0.1, 0.9, 0] [0, 0, 0.9, 0.1, 0] =
      some (9 / 41) :=
    cos_same_eval _ _ 0.82 0.18 _ (by norm_num) (by norm_num) (by norm_num)
      (by norm_num) (by norm_num)
  have h2 : cosine_similarity [(0 : ℝ), 0, 0.1, 0.9, 0] [0.9, 0.1, 0, 0, 0] =
      some 0 :=
    cos_same_eval _ _ 0.82 0 _ (by norm_num) (by norm_num) (by norm_num)
      (by norm_num) (by norm_num)
  simp only [find_closest_match, List.enum, List.enumFrom, List.map, maxBy,
    maxStep, List.foldl, h0, h1, h2, rcmp_eq_gt_iff]
  norm_num [rcmp_eq_gt_iff]

theorem fcm_scenario_years_old :
    find_closest_match 0.95 [(0 : ℝ), 0.9, 0.1, 0, 0]
      [[0, 0.9, 0.1, 0, 0], [0, 0, 0.9, 0.1, 0], [0.9, 0.1, 0, 0, 0]] = some 0 := by
  have h0 : cosine_similarity [(0 : ℝ), 0.9, 0.1, 0, 0] [0, 0.9, 0.1, 0, 0] =
      some 1 :=
    cos_same_eval _ _ 0.82 0.82 _ (by norm_num) (by norm_num) (by norm_num)
      (by norm_num) (by norm_num)
  have h1 : cosine_similarity [(0 : ℝ), 0.9, 0.1, 0, 0] [0, 0, 0.9, 0.1, 0] =
      some (9 / 82) :=
    cos_same_eval _ _ 0.82 0.09 _ (by norm_num) (by norm_num) (by norm_num)
      (by norm_num) (by norm_num)
  have h2 : cosine_similarity [(0 : ℝ), 0.9, 0.1, 0, 0] [0.9, 0.1, 0, 0, 0] =
      some (9 / 82) :=
    cos_same_eval _ _ 0.82 0.09 _ (by norm_num) (by norm_num) (by norm_num)
      (by norm_num) (by norm_num)
  simp only [find_closest_match, List.enum, List.enumFrom, List.map, maxBy,
    maxStep, List.foldl, h0, h1, h2, rcmp_eq_gt_iff]
  norm_num [rcmp_eq_gt_iff]

/-- The exact-rename scenario evaluated end to end (threshold 0.95).
Sanity-check form; the claim-level statement is derived from it below. -/
theorem shapeshift_scenario_eval :
    shapeshift 0.95
      (.obj [("age", .num 30), ("city", .str "New York"), ("name", .str "John Doe")])
      (.obj [("full_name", .str ""),
             ("location", .obj [("city", .str ""), ("country", .str "")]),
             ("years_old", .num 0)]) =
      some ⟨.obj [("full_name", .str "John Doe"),
                  ("location", .obj [("city", .str "New York"), ("country", .null)]),
                  ("years_old", .num 30)],
            ["age", "city", "name"],
            ["full_name", "location.city", "location.country", "years_old"],
            [[0, 0.9, 0.1, 0, 0], [0, 0, 0.9, 0.1, 0], [0.9, 0.1, 0, 0, 0]],
            [[0.9, 0.1, 0, 0, 0], [0, 0, 0.9, 0.1, 0], [0, 0, 0.1, 0.9, 0],
             [0, 0.9, 0.1, 0, 0]]⟩ := by
  have hfs : flatten_object
      (.obj [("age", .num 30), ("city", .str "New York"), ("name", .str "John Doe")]) =
      [("age", .num 30), ("city", .str "New York"), ("name", .str "John Doe")] := by
    decide
  have hft : flatten_object
      (.obj [("full_name", .str ""),
             ("location", .obj [("city", .str ""), ("country", .str "")]),
             ("years_old", .num 0)]) =
      [("full_name", .str ""), ("location.city", .str ""),
       ("location.country", .str ""), ("years_old", .num 0)] := by decide
  have hr1 : retrieveValue
      [("age", .num 30), ("city", .str "New York"), ("name", .str "John Doe")]
      "name" = some (.str "John Doe") := by decide
  have hr2 : retrieveValue
      [("age", .num 30), ("city", .str "New York"), ("name", .str "John Doe")]
      "city" = some (.str "New York") := by decide
  have hr3 : retrieveValue
      [("age", .num 30), ("city", .str "New York"), ("name", .str "John Doe")]
      "age" = some (.num 30) := by decide
  have hi1 : insert_nested (.obj []) "full_name" (.str "John Doe") =
      .obj [("full_name", .str "John Doe")] := by decide
  have hi2 : insert_nested (.obj [("full_name", .str "John Doe")])
      "location.city" (.str "New York") =
      .obj [("full_name", .str "John Doe"),
            ("location", .obj [("city", .str "New York")])] := by decide
  have hi3 : insert_nested
      (.obj [("full_name", .str "John Doe"),
             ("location", .obj [("city", .str "New York")])])
      "location.country" .null =
      .obj [("full_name", .str "John Doe"),
            ("location", .obj [("city", .str "New York"), ("country", .null)])] := by
    decide
  have hi4 : insert_nested
      (.obj [("full_name", .str "John Doe"),
             ("location", .obj [("city", .str "New York"), ("country", .null)])])
      "years_old" (.num 30) =
      .obj [("full_name", .str "John Doe"),
            ("location", .obj [("city", .str "New York"), ("country", .null)]),
            ("years_old", .num 30)] := by decide
  have hne : (("location" : String) = "") = False := by simp
  have happ1 : "location" ++ "." ++ "city" = "location.city" := rfl
  have happ2 : "location" ++ "." ++ "country" = "location.country" := rfl
  have henum : (["full_name", "location.city", "location.country",
      "years_old"] : List String).enum =
      [(0, "full_name"), (1, "location.city"), (2, "location.country"),
       (3, "years_old")] := by decide
  have hg0 : (["age", "city", "name"] : List String).getD 0 "" = "age" := by decide
  have hg1 : (["age", "city", "name"] : List String).getD 1 "" = "city" := by decide
  have hg2 : (["age", "city", "name"] : List String).getD 2 "" = "name" := by decide
  have ht0 : (0 : ℕ) < 4 := by norm_num
  have ht1 : (1 : ℕ) < 4 := by norm_num
  have ht2 : (2 : ℕ) < 4 := by norm_num
  have ht3 : (3 : ℕ) < 4 := by norm_num
  have hW0 : ([[0.9, 0.1, 0, 0, 0], [0, 0, 0.9, 0.1, 0], [0, 0, 0.1, 0.9, 0],
      [0, 0.9, 0.1, 0, 0]] : List (List ℝ)).getD 0 [] = [0.9, 0.1, 0, 0, 0] := rfl
  have hW1 : ([[0.9, 0.1, 0, 0, 0], [0, 0, 0.9, 0.1, 0], [0, 0, 0.1, 0.9, 0],
      [0, 0.9, 0.1, 0, 0]] : List (List ℝ)).getD 1 [] = [0, 0, 0.9, 0.1, 0] := rfl
  have hW2 : ([[0.9, 0.1, 0, 0, 0], [0, 0, 0.9, 0.1, 0], [0, 0, 0.1, 0.9, 0],
      [0, 0.9, 0.1, 0, 0]] : List (List ℝ)).getD 2 [] = [0, 0, 0.1, 0.9, 0] := rfl
  have hW3 : ([[0.9, 0.1, 0, 0, 0], [0, 0, 0.9, 0.1, 0], [0, 0, 0.1, 0.9, 0],
      [0, 0.9, 0.1, 0, 0]] : List (List ℝ)).getD 3 [] = [0, 0.9, 0.1, 0, 0] := rfl
  have hL : ([[0.9, 0.1, 0, 0, 0], [0, 0, 0.9, 0.1, 0], [0, 0, 0.1, 0.9, 0],
      [0, 0.9, 0.1, 0, 0]] : List (List ℝ)).length = 4 := rfl
  have hm2 : ¬ (("city" : String) ∈ ["name"]) := by decide
  have hm3 : ¬ (("age" : String) ∈ ["city", "name"]) := by decide
  simp only [shapeshift, hfs, hft, hne, happ1, happ2, if_true, if_false,
    List.map, emb_name, emb_full_name, emb_age, emb_years_old, emb_city,
    emb_location_city, emb_location_country]
  simp only [henum, processTargets, hL, ht0, ht1, ht2, ht3, if_true, if_false,
    hW0, hW1, hW2, hW3, fcm_scenario_full_name, fcm_scenario_location_city,
    fcm_scenario_location_country, fcm_scenario_years_old, hg0, hg1, hg2,
    List.not_mem_nil, hm2, hm3, hr1, hr2, hr3, hi1, hi2, hi3, hi4]

/-! ### The order-contention counterexample to threshold monotonicity:
source `{"location": "foo"}`, target `{"city": 0, "location": 0}`.  The
`city`/`location` mock similarity is `0.66 / (√0.82 · √0.58) ≈ 0.957`. -/

theorem sim_city_location_eq :
    cosine_similarity [(0 : ℝ), 0, 0.9, 0.1, 0] [0, 0, 0.7, 0.3, 0] =
      some (0.66 / (Real.sqrt 0.82 * Real.sqrt 0.58)) :=
  cosine_similarity_eq (by norm_num) (by norm_num) (by norm_num) (by norm_num)
    (by norm_num)

theorem sim_city_location_ge :
    (0.9 : ℝ) ≤ 0.66 / (Real.sqrt 0.82 * Real.sqrt 0.58) := by
  rw [← Real.sqrt_mul (by norm_num : (0 : ℝ) ≤ 0.82)]
  have hpos : (0 : ℝ) < Real.sqrt (0.82 * 0.58) := Real.sqrt_pos.mpr (by norm_num)
  rw [le_div_iff hpos]
  have h : Real.sqrt (0.82 * 0.58) ≤ 11 / 15 :=
    (Real.sqrt_le_left (by norm_num)).mpr (by norm_num)
  nlinarith [h]

theorem sim_city_location_lt :
    0.66 / (Real.sqrt 0.82 * Real.sqrt 0.58) < (0.97 : ℝ) := by
  rw [← Real.sqrt_mul (by norm_num : (0 : ℝ) ≤ 0.82)]
  have hpos : (0 : ℝ) < Real.sqrt (0.82 * 0.58) := Real.sqrt_pos.mpr (by norm_num)
  rw [div_lt_iff hpos]
  have h : (66 / 97 : ℝ) < Real.sqrt (0.82 * 0.58) :=
    (Real.lt_sqrt (by norm_num)).mpr (by norm_num)
  nlinarith [h]

theorem fcm_city_vs_location_hit (t : ℝ)
    (h : t ≤ 0.66 / (Real.sqrt 0.82 * Real.sqrt 0.58)) :
    find_closest_match t [(0 : ℝ), 0, 0.9, 0.1, 0] [[0, 0, 0.7, 0.3, 0]] =
      some 0 := by
  simp only [find_closest_match, List.enum, List.enumFrom, List.map, maxBy,
    maxStep, List.foldl, sim_city_location_eq]
  rw [if_pos h]

theorem fcm_city_vs_location_miss (t : ℝ)
    (h : 0.66 / (Real.sqrt 0.82 * Real.sqrt 0.58) < t) :
    find_closest_match t [(0 : ℝ), 0, 0.9, 0.1, 0] [[0, 0, 0.7, 0.3, 0]] =
      none := by
  simp only [find_closest_match, List.enum, List.enumFrom, List.map, maxBy,
    maxStep, List.foldl, sim_city_location_eq]
  rw [if_neg (not_le.mpr h)]

theorem fcm_location_vs_location (t : ℝ) (h : t ≤ 1) :
    find_closest_match t [(0 : ℝ), 0, 0.7, 0.3, 0] [[0, 0, 0.7, 0.3, 0]] =
      some 0 := by
  have hs : cosine_similarity [(0 : ℝ), 0, 0.7, 0.3, 0] [0, 0, 0.7, 0.3, 0] =
      some 1 :=
    cos_same_eval _ _ 0.58 0.58 _ (by norm_num) (by norm_num) (by norm_num)
      (by norm_num) (by norm_num)
  simp only [find_closest_match, List.enum, List.enumFrom, List.map, maxBy,
    maxStep, List.foldl, hs]
  rw [if_pos h]

/-- Run of the counterexample pair at threshold 0.9: `city` (processed
first) claims the lone source key `location`, so `location` gets `null`. -/
theorem shapeshift_cex_low :
    shapeshift 0.9 (.obj [("location", .str "foo")])
      (.obj [("city", .num 0), ("location", .num 0)]) =
      some ⟨.obj [("city", .str "foo"), ("location", .null)],
            ["location"], ["city", "location"],
            [[0, 0, 0.7, 0.3, 0]],
            [[0, 0, 0.9, 0.1, 0], [0, 0, 0.7, 0.3, 0]]⟩ := by
  have hfs : flatten_object (.obj [("location", .str "foo")]) =
      [("location", .str "foo")] := by decide
  have hft : flatten_object (.obj [("city", .num 0), ("location", .num 0)]) =
      [("city", .num 0), ("location", .num 0)] := by decide
  have henum : ((["city", "location"] : List String)).enum =
      [(0, "city"), (1, "location")] := by decide
  have hg0 : ((["location"] : List String)).getD 0 "" = "location" := by decide
  have hr : retrieveValue [("location", .str "foo")] "location" =
      some (.str "foo") := by decide
  have hi1 : insert_nested (.obj []) "city" (.str "foo") =
      .obj [("city", .str "foo")] := by decide
  have hi2 : insert_nested (.obj [("city", .str "foo")]) "location" .null =
      .obj [("city", .str "foo"), ("location", .null)] := by decide
  have hW0 : ([[0, 0, 0.9, 0.1, 0], [0, 0, 0.7, 0.3, 0]] :
      List (List ℝ)).getD 0 [] = [0, 0, 0.9, 0.1, 0] := rfl
  have hW1 : ([[0, 0, 0.9, 0.1, 0], [0, 0, 0.7, 0.3, 0]] :
      List (List ℝ)).getD 1 [] = [0, 0, 0.7, 0.3, 0] := rfl
  have hL : ([[0, 0, 0.9, 0.1, 0], [0, 0, 0.7, 0.3, 0]] :
      List (List ℝ)).length = 2 := rfl
  have ht0 : (0 : ℕ) < 2 := by norm_num
  have ht1 : (1 : ℕ) < 2 := by norm_num
  have hmem : (("location" : String) ∈ ["location"]) := by decide
  have hf1 := fcm_city_vs_location_hit 0.9 sim_city_location_ge
  have hf2 := fcm_location_vs_location 0.9 (by norm_num)
  simp only [shapeshift, hfs, hft, List.map, emb_city, emb_location, henum,
    processTargets, hL, ht0, ht1, if_true, if_false, hW0, hW1, hf1, hf2, hg0,
    List.not_mem_nil, hmem, hr, hi1, hi2]

/-- Run of the counterexample pair at threshold 0.97: `city` now misses the
threshold, so `location` (processed second) claims the source key. -/
theorem shapeshift_cex_high :
    shapeshift 0.97 (.obj [("location", .str "foo")])
      (.obj [("city", .num 0), ("location", .num 0)]) =
      some ⟨.obj [("city", .null), ("location", .str "foo")],
            ["location"], ["city", "location"],
            [[0, 0, 0.7, 0.3, 0]],
            [[0, 0, 0.9, 0.1, 0], [0, 0, 0.7, 0.3, 0]]⟩ := by
  have hfs : flatten_object (.obj [("location", .str "foo")]) =
      [("location", .str "foo")] := by decide
  have hft : flatten_object (.obj [("city", .num 0), ("location", .num 0)]) =
      [("city", .num 0), ("location", .num 0)] := by decide
  have henum : ((["city", "location"] : List String)).enum =
      [(0, "city"), (1, "location")] := by decide
  have hg0 : ((["location"] : List String)).getD 0 "" = "location" := by decide
  have hr : retrieveValue [("location", .str "foo")] "location" =
      some (.str "foo") := by decide
  have hi1 : insert_nested (.obj []) "city" .null = .obj [("city", .null)] := by
    decide
  have hi2 : insert_nested (.obj [("city", .null)]) "location" (.str "foo") =
      .obj [("city", .null), ("location", .str "foo")] := by decide
  have hW0 : ([[0, 0, 0.9, 0.1, 0], [0, 0, 0.7, 0.3, 0]] :
      List (List ℝ)).getD 0 [] = [0, 0, 0.9, 0.1, 0] := rfl
  have hW1 : ([[0, 0, 0.9, 0.1, 0], [0, 0, 0.7, 0.3, 0]] :
      List (List ℝ)).getD 1 [] = [0, 0, 0.7, 0.3, 0] := rfl
  have hL : ([[0, 0, 0.9, 0.1, 0], [0, 0, 0.7, 0.3, 0]] :
      List (List ℝ)).length = 2 := rfl
  have ht0 : (0 : ℕ) < 2 := by norm_num
  have ht1 : (1 : ℕ) < 2 := by norm_num
  have hf1 := fcm_city_vs_location_miss 0.97 sim_city_location_lt
  have hf2 := fcm_location_vs_location 0.97 (by norm_num)
  simp only [shapeshift, hfs, hft, List.map, emb_city, emb_location, henum,
    processTargets, hL, ht0, ht1, if_true, if_false, hW0, hW1, hf1, hf2, hg0,
    List.not_mem_nil, hr, hi1, hi2]

/-! ### Structure of the `max_by` fold -/

theorem maxStep_eq_or (acc y : ℕ × Option ℝ) :
    maxStep acc y = acc ∨ maxStep acc y = y := by
  unfold maxStep
  split_ifs <;> simp

theorem foldl_maxStep_mem :
    ∀ (l : List (ℕ × Option ℝ)) (x : ℕ × Option ℝ), l.foldl maxStep x ∈ x :: l
  | [], x => by simp
  | y :: l, x => by
    have h := foldl_maxStep_mem l (maxStep x y)
    rcases maxStep_eq_or x y with he | he <;> rw [List.foldl_cons, he] <;>
      rw [he] at h <;> simp only [List.mem_cons] at h ⊢ <;> tauto

/-- Whatever Rust's `max_by` returns is an element of the iterator. -/
theorem maxBy_mem {l : List (ℕ × Option ℝ)} {p : ℕ × Option ℝ}
    (h : maxBy l = some p) : p ∈ l := by
  cases l with
  | nil => simp [maxBy] at h
  | cons x xs =>
    simp only [maxBy, Option.some.injEq] at h
    have := foldl_maxStep_mem xs x
    rw [h] at this
    exact this

theorem foldl_maxStep_all_lt :
    ∀ (l : List (ℕ × Option ℝ)) (ai : ℕ) (as : ℝ),
      (∀ p ∈ l, ∃ x, p.2 = some x ∧ x < as) →
      l.foldl maxStep (ai, some as) = (ai, some as)
  | [], _, _, _ => rfl
  | y :: l, ai, as, h => by
    obtain ⟨x, hx, hlt⟩ := h y (List.mem_cons_self y l)
    have hstep : maxStep (ai, some as) y = (ai, some as) := by
      unfold maxStep
      rw [hx, if_pos (rcmp_eq_gt_iff.mpr hlt)]
    rw [List.foldl_cons, hstep]
    exact foldl_maxStep_all_lt l ai as (fun p hp => h p (List.mem_cons_of_mem y hp))

theorem foldl_maxStep_argmax :
    ∀ (ss : List ℝ) (n ai : ℕ) (as : ℝ) (i : ℕ),
      i < ss.length →
      as ≤ ss.getD i 0 →
      (∀ j, j < ss.length → ss.getD j 0 ≤ ss.getD i 0) →
      (∀ j, i < j → j < ss.length → ss.getD j 0 < ss.getD i 0) →
      ((ss.enumFrom n).map (fun p => (p.1, some p.2))).foldl maxStep
          (ai, some as) = (n + i, some (ss.getD i 0))
  | [], _, _, _, i, hi, _, _, _ => absurd hi (by simp)
  | s :: rest, n, ai, as, 0, _, hacc, _, hlast => by
    simp only [List.getD_cons_zero] at hacc ⊢
    have hstep : maxStep (ai, some as) (n, s) = (n, some s) := by
      unfold maxStep
      rw [if_neg]
      simp only [rcmp_eq_gt_iff]
      exact not_lt.mpr hacc
    simp only [List.enumFrom, List.map, List.foldl_cons, hstep]
    rw [foldl_maxStep_all_lt, Nat.add_zero]
    intro p hp
    simp only [List.mem_map] at hp
    obtain ⟨⟨m, x⟩, hmem, rfl⟩ := hp
    refine ⟨x, rfl, ?_⟩
    obtain ⟨h1, h2, h3⟩ := List.mem_enumFrom hmem
    have hj : m - (n + 1) < rest.length := by omega
    have := hlast (m - (n + 1) + 1) (Nat.succ_pos _) (by simpa using hj)
    rw [List.getD_cons_succ, List.getD_cons_zero,
      List.getD_eq_getElem?_getD, List.getElem?_eq_getElem hj] at this
    simpa [← h3] using this
  | s :: rest, n, ai, as, i + 1, hi, hacc, hmax, hlast => by
    have hiR : i < rest.length := by simpa using hi
    have hmaxR : ∀ j, j < rest.length → rest.getD j 0 ≤ rest.getD i 0 := by
      intro j hj
      have := hmax (j + 1) (by simpa using hj)
      simpa [List.getD_cons_succ] using this
    have hlastR : ∀ j, i < j → j < rest.length → rest.getD j 0 < rest.getD i 0 := by
      intro j hij hj
      have := hlast (j + 1) (by omega) (by simpa using hj)
      simpa [List.getD_cons_succ] using this
    have hsM : s ≤ rest.getD i 0 := by
      have := hmax 0 (Nat.succ_pos _)
      simpa [List.getD_cons_zero, List.getD_cons_succ] using this
    have haccM : as ≤ rest.getD i 0 := by
      simpa [List.getD_cons_succ] using hacc
    simp only [List.enumFrom, List.map, List.foldl_cons]
    rcases maxStep_eq_or (ai, some as) (n, s) with he | he <;> rw [he] <;>
      rw [foldl_maxStep_argmax rest (n + 1) _ _ i hiR (by assumption) hmaxR hlastR] <;>
      simp [List.getD_cons_succ] <;> omega

theorem enum_map_snd :
    ∀ (es : List (List ℝ)) (ss : List ℝ) (g : List ℝ → Option ℝ) (n : ℕ),
      es.map g = ss.map some →
      (es.enumFrom n).map (fun p => (p.1, g p.2)) =
        (ss.enumFrom n).map (fun p => (p.1, some p.2))
  | [], ss, g, n, h => by cases ss <;> simp_all
  | e :: es, ss, g, n, h => by
    cases ss with
    | nil => simp at h
    | cons s rest =>
      simp only [List.map, List.cons.injEq] at h
      simp only [List.enumFrom, List.map, List.cons.injEq]
      exact ⟨by simp [h.1], enum_map_snd es rest g (n + 1) h.2⟩

theorem enumFrom_map_lt {rest : List ℝ} {s : ℝ} {n : ℕ}
    (h : ∀ j, j < rest.length → rest.getD j 0 < s) :
    ∀ p ∈ (rest.enumFrom n).map (fun p => (p.1, some p.2)),
      ∃ x, p.2 = some x ∧ x < s := by
  intro p hp
  simp only [List.mem_map] at hp
  obtain ⟨⟨m, x⟩, hmem, rfl⟩ := hp
  obtain ⟨h1, h2, h3⟩ := List.mem_enumFrom hmem
  have hj : m - n < rest.length := by omega
  refine ⟨x, rfl, ?_⟩
  have := h (m - n) hj
  rw [List.getD_eq_getElem?_getD, List.getElem?_eq_getElem hj] at this
  simpa [← h3] using this

/-- C3 (amended): with every similarity well defined, `find_closest_match`
returns the LAST index attaining the maximum similarity (provided it clears
the threshold) — `max_by` keeps the later element on ties. -/
theorem C3_max_last_occurrence (t : ℝ) (e : List ℝ) (es : List (List ℝ))
    (ss : List ℝ) (i : ℕ)
    (hmap : es.map (cosine_similarity e) = ss.map some)
    (hi : i < ss.length)
    (hmax : ∀ j, j < ss.length → ss.getD j 0 ≤ ss.getD i 0)
    (hlast : ∀ j, i < j → j < ss.length → ss.getD j 0 < ss.getD i 0)
    (ht : t ≤ ss.getD i 0) :
    find_closest_match t e es = some i := by
  have hscored := enum_map_snd es ss (cosine_similarity e) 0 hmap
  cases ss with
  | nil => simp at hi
  | cons s rest =>
    simp only [find_closest_match, List.enum, hscored, List.enumFrom, List.map,
      maxBy]
    cases i with
    | zero =>
      rw [foldl_maxStep_all_lt _ 0 s (enumFrom_map_lt (fun j hj => by
        have := hlast (j + 1) (Nat.succ_pos j) (by simpa using hj)
        simpa [List.getD_cons_succ] using this))]
      simp only [List.getD_cons_zero] at ht
      simp only [if_pos ht]
    | succ i' =>
      have hiR : i' < rest.length := by simpa using hi
      have hmaxR : ∀ j, j < rest.length → rest.getD j 0 ≤ rest.getD i' 0 := by
        intro j hj
        have := hmax (j + 1) (by simpa using hj)
        simpa [List.getD_cons_succ] using this
      have hlastR : ∀ j, i' < j → j < rest.length →
          rest.getD j 0 < rest.getD i' 0 := by
        intro j hij hj
        have := hlast (j + 1) (by omega) (by simpa using hj)
        simpa [List.getD_cons_succ] using this
      have hsR : s ≤ rest.getD i' 0 := by
        have := hmax 0 (Nat.succ_pos _)
        simpa [List.getD_cons_zero, List.getD_cons_succ] using this
      rw [foldl_maxStep_argmax rest 1 0 s i' hiR hsR hmaxR hlastR]
      simp only [List.getD_cons_succ] at ht
      simp only [if_pos ht, Nat.add_comm 1 i']

/-- C3 witness: the theorem applied at a concrete tie. -/
theorem C3_max_last_occurrence_witness :
    find_closest_match 0.5 [(1 : ℝ), 0] [[1, 0], [1, 0]] = some 1 := by
  have h : cosine_similarity [(1 : ℝ), 0] [1, 0] = some 1 :=
    cos_same_eval _ _ 1 1 _ (by norm_num) (by norm_num) (by norm_num)
      (by norm_num) (by norm_num)
  refine C3_max_last_occurrence 0.5 [(1 : ℝ), 0] [[1, 0], [1, 0]] [1, 1] 1
    (by simp [h]) (by norm_num) ?_ ?_ (by norm_num)
  · intro j hj
    simp only [List.length_cons, List.length_nil] at hj
    interval_cases j <;> norm_num
  · intro j h1 h2
    simp only [List.length_cons, List.length_nil] at h2
    omega

/-- C3 counterexample: both source vectors are identical (equal, maximal
similarity 1), yet `find_closest_match` returns index 1, not the smallest
index 0 that the claim's "first occurrence" tie-break predicts. -/
theorem C3_tie_first_occurrence_cex :
    cosine_similarity [(1 : ℝ), 0] [1, 0] = some 1 ∧
    find_closest_match 0.5 [(1 : ℝ), 0] [[1, 0], [1, 0]] = some 1 ∧
    (some 1 : Option ℕ) ≠ some 0 := by
  have h : cosine_similarity [(1 : ℝ), 0] [1, 0] = some 1 :=
    cos_same_eval _ _ 1 1 _ (by norm_num) (by norm_num) (by norm_num)
      (by norm_num) (by norm_num)
  refine ⟨h, ?_, by simp⟩
  simp only [find_closest_match, List.enum, List.enumFrom, List.map, maxBy,
    maxStep, List.foldl, h, rcmp_eq_gt_iff, lt_self_iff_false, if_false]
  norm_num

/-- C1 (amended): the raw best-match choice of `find_closest_match` is
threshold independent, so for a single target key raising the threshold can
only turn its match into `null` — a match found at the higher threshold is
the same match at any lower one.  (Whole-run monotonicity fails through the
used-source-key set, see the counterexample.) -/
theorem C1_find_closest_match_threshold_mono (t1 t2 : ℝ) (e : List ℝ)
    (es : List (List ℝ)) (i : ℕ) (h12 : t1 ≤ t2)
    (h : find_closest_match t2 e es = some i) :
    find_closest_match t1 e es = some i := by
  simp only [find_closest_match] at h ⊢
  rcases hm : maxBy ((es.enum).map (fun p => (p.1, cosine_similarity e p.2)))
    with _ | ⟨idx, sim⟩
  · rw [hm] at h
    simp at h
  · rw [hm] at h ⊢
    rcases sim with _ | s
    · simp at h
    · simp only at h ⊢
      by_cases hts : t2 ≤ s
      · rw [if_pos hts] at h
        rw [if_pos (le_trans h12 hts)]
        exact h
      · rw [if_neg hts] at h
        simp at h

/-- C1 witness for the amended theorem. -/
theorem C1_find_closest_match_threshold_mono_witness :
    (0.5 : ℝ) ≤ 0.95 ∧ find_closest_match 0.5 [(1 : ℝ), 0] [[1, 0]] = some 0 := by
  have h : cosine_similarity [(1 : ℝ), 0] [1, 0] = some 1 :=
    cos_same_eval _ _ 1 1 _ (by norm_num) (by norm_num) (by norm_num)
      (by norm_num) (by norm_num)
  have h95 : find_closest_match 0.95 [(1 : ℝ), 0] [[1, 0]] = some 0 := by
    simp only [find_closest_match, List.enum, List.enumFrom, List.map, maxBy,
      List.foldl, h]
    rw [if_pos (by norm_num)]
  exact ⟨by norm_num,
    C1_find_closest_match_threshold_mono 0.5 0.95 _ _ 0 (by norm_num) h95⟩

/-- C1 counterexample: thresholds 0.9 < 0.97 on source
`{"location": "foo"}`, target `{"city": 0, "location": 0}`.  At 0.9 the
leaf `location` is `null` (the source key was claimed by `city`), at 0.97
it is `"foo"` — raising the threshold created a match that did not exist at
the lower threshold, refuting the claim. -/
theorem C1_threshold_monotonicity_cex :
    (0.9 : ℝ) < 0.97 ∧
    (shapeshift 0.9 (.obj [("location", .str "foo")])
        (.obj [("city", .num 0), ("location", .num 0)])).map
        (fun o => o.result) =
      some (.obj [("city", .str "foo"), ("location", .null)]) ∧
    (shapeshift 0.97 (.obj [("location", .str "foo")])
        (.obj [("city", .num 0), ("location", .num 0)])).map
        (fun o => o.result) =
      some (.obj [("city", .null), ("location", .str "foo")]) ∧
    ¬ (∀ (k : String) (v : Json), v ≠ .null →
        mapGet [("city", .null), ("location", .str "foo")] k = some v →
        mapGet [("city", .str "foo"), ("location", .null)] k = some v) := by
  refine ⟨by norm_num, ?_, ?_, ?_⟩
  · rw [shapeshift_cex_low]
    rfl
  · rw [shapeshift_cex_high]
    rfl
  · intro h
    have := h "location" (.str "foo") (by decide) (by decide)
    exact absurd this (by decide)

/-- C9: the exact-rename scenario of the spec, threshold 0.95 (serde_json
sorts object keys, so member lists appear in sorted key order). -/
theorem C9_exact_rename_scenario :
    (shapeshift 0.95
      (.obj [("age", .num 30), ("city", .str "New York"),
             ("name", .str "John Doe")])
      (.obj [("full_name", .str ""),
             ("location", .obj [("city", .str ""), ("country", .str "")]),
             ("years_old", .num 0)])).map (fun o => o.result) =
      some (.obj [("full_name", .str "John Doe"),
                  ("location", .obj [("city", .str "New York"),
                                     ("country", .null)]),
                  ("years_old", .num 30)]) := by
  rw [shapeshift_scenario_eval]
  rfl

/-- C6: on a zero vector `cosine_similarity` computes `0/0`, i.e. NaN
(modelled `none`) — not the fixed tie-break value the spec requires. -/
theorem C6_zero_vector_similarity_nan :
    cosine_similarity [(0 : ℝ), 0] [1, 0] = none ∧
    cosine_similarity [(0 : ℝ), 0] [0, 0] = none := by
  constructor <;> simp [cosine_similarity]

/-- C4: when the best match of a target key is already in the used set, the
loop inserts `null` for that key and continues with the used set unchanged —
no fallback to a second-best source key, no reassignment. -/
theorem C4_used_source_key_gives_null (t : ℝ)
    (flat_source : List (String × Json)) (source_keys : List String)
    (source_embeddings target_embeddings : List (List ℝ))
    (i : ℕ) (k : String) (rest : List (ℕ × String))
    (transformed : Json) (used : List String) (idx : ℕ)
    (hlen : i < target_embeddings.length)
    (hmatch : find_closest_match t (target_embeddings.getD i [])
        source_embeddings = some idx)
    (hused : source_keys.getD idx "" ∈ used) :
    processTargets t flat_source source_keys source_embeddings
        target_embeddings ((i, k) :: rest) transformed used =
      processTargets t flat_source source_keys source_embeddings
        target_embeddings rest (insert_nested transformed k .null) used := by
  simp only [processTargets, hlen, hmatch, hused, if_true]

/-- C4 witness: a concrete blocked step. -/
theorem C4_used_source_key_gives_null_witness :
    processTargets 0 [("a", .num 1)] ["a"] [[(1 : ℝ), 0]] [[(1 : ℝ), 0]]
        [(0, "x")] (.obj []) ["a"] =
      processTargets 0 [("a", .num 1)] ["a"] [[(1 : ℝ), 0]] [[(1 : ℝ), 0]]
        [] (insert_nested (.obj []) "x" .null) ["a"] := by
  have h : cosine_similarity [(1 : ℝ), 0] [1, 0] = some 1 :=
    cos_same_eval _ _ 1 1 _ (by norm_num) (by norm_num) (by norm_num)
      (by norm_num) (by norm_num)
  have hf : find_closest_match 0 [(1 : ℝ), 0] [[1, 0]] = some 0 := by
    simp only [find_closest_match, List.enum, List.enumFrom, List.map, maxBy,
      List.foldl, h]
    rw [if_pos (by norm_num)]
  exact C4_used_source_key_gives_null 0 [("a", .num 1)] ["a"] [[(1 : ℝ), 0]]
    [[(1 : ℝ), 0]] 0 "x" [] (.obj []) ["a"] 0 (by norm_num) hf (by decide)

/-! ### Injectivity of the greedy assignment (C5) -/

theorem matchStep_not_used {t : ℝ} {source_keys : List String}
    {source_embeddings target_embeddings : List (List ℝ)}
    {used : List String} {i : ℕ} {sk : String}
    (h : matchStep t source_keys source_embeddings target_embeddings used i =
      some sk) : sk ∉ used := by
  unfold matchStep at h
  by_cases hlen : i < target_embeddings.length
  · rw [if_pos hlen] at h
    rcases hf : find_closest_match t (target_embeddings.getD i [])
        source_embeddings with _ | idx
    · rw [hf] at h
      simp at h
    · rw [hf] at h
      simp only at h
      by_cases hmem : source_keys.getD idx "" ∈ used
      · rw [if_pos hmem] at h
        simp at h
      · rw [if_neg hmem] at h
        simp only [Option.some.injEq] at h
        rw [← h]
        exact hmem
  · rw [if_neg hlen] at h
    simp at h

theorem matchTrace_assigned_not_used (t : ℝ) (source_keys : List String)
    (source_embeddings target_embeddings : List (List ℝ)) :
    ∀ (targets : List (ℕ × String)) (used : List String) (k s : String),
      (k, some s) ∈ matchTrace t source_keys source_embeddings
        target_embeddings targets used → s ∉ used
  | [], used, k, s, h => by simp [matchTrace] at h
  | (i, k0) :: rest, used, k, s, h => by
    rw [matchTrace] at h
    rcases hstep : matchStep t source_keys source_embeddings target_embeddings
        used i with _ | sk
    · rw [hstep] at h
      simp only [List.mem_cons, Prod.mk.injEq, and_false] at h
      rcases h with ⟨_, h⟩ | h
      · exact absurd h (by simp)
      · exact matchTrace_assigned_not_used t source_keys source_embeddings
          target_embeddings rest used k s h
    · rw [hstep] at h
      simp only [List.mem_cons, Prod.mk.injEq] at h
      rcases h with ⟨_, h⟩ | h
      · obtain rfl : s = sk := by simpa using h
        exact matchStep_not_used hstep
      · have := matchTrace_assigned_not_used t source_keys source_embeddings
          target_embeddings rest (sk :: used) k s h
        exact fun hc => this (List.mem_cons_of_mem sk hc)

theorem matchTrace_pairwise (t : ℝ) (source_keys : List String)
    (source_embeddings target_embeddings : List (List ℝ)) :
    ∀ (targets : List (ℕ × String)) (used : List String),
      List.Pairwise (fun a b => ∀ s : String, a.2 = some s → b.2 ≠ some s)
        (matchTrace t source_keys source_embeddings target_embeddings
          targets used)
  | [], used => by simp [matchTrace]
  | (i, k0) :: rest, used => by
    rw [matchTrace]
    rcases hstep : matchStep t source_keys source_embeddings target_embeddings
        used i with _ | sk
    · refine List.Pairwise.cons ?_ (matchTrace_pairwise t source_keys
        source_embeddings target_embeddings rest used)
      intro b _ s hs
      simp at hs
    · refine List.Pairwise.cons ?_ (matchTrace_pairwise t source_keys
        source_embeddings target_embeddings rest (sk :: used))
      rintro ⟨kb, vb⟩ hb s hs hvb
      simp only [Option.some.injEq] at hs
      simp only at hvb
      rw [hvb, ← hs] at hb
      exact matchTrace_assigned_not_used t source_keys source_embeddings
        target_embeddings rest (sk :: used) kb sk hb
        (List.mem_cons_self sk used)

/-- C5: in a single run's match trace, no two distinct target positions are
assigned the same source key — each source key is claimed at most once. -/
theorem C5_assignment_injective (t : ℝ) (source_keys : List String)
    (source_embeddings target_embeddings : List (List ℝ))
    (targets : List (ℕ × String)) (used : List String)
    (i j : ℕ) (k1 k2 s : String)
    (hi : (matchTrace t source_keys source_embeddings target_embeddings
        targets used).getD i ("", none) = (k1, some s))
    (hj : (matchTrace t source_keys source_embeddings target_embeddings
        targets used).getD j ("", none) = (k2, some s)) :
    i = j := by
  set l := matchTrace t source_keys source_embeddings target_embeddings
    targets used with hl
  have hpw := matchTrace_pairwise t source_keys source_embeddings
    target_embeddings targets used
  rw [← hl] at hpw
  have hlen : ∀ (m : ℕ) (km : String),
      l.getD m ("", none) = (km, some s) → m < l.length := by
    intro m km hm
    by_contra hc
    rw [List.getD_eq_default _ _ (not_lt.mp hc)] at hm
    have hsnd : (none : Option String) = some s := congrArg Prod.snd hm
    simp at hsnd
  have hi' := hlen i k1 hi
  have hj' := hlen j k2 hj
  rw [List.getD_eq_getElem?_getD, List.getElem?_eq_getElem hi'] at hi
  rw [List.getD_eq_getElem?_getD, List.getElem?_eq_getElem hj'] at hj
  simp only [Option.getD_some] at hi hj
  by_contra hne
  rcases Nat.lt_or_ge i j with hij | hij
  · have := (List.pairwise_iff_getElem.mp hpw) i j hi' hj' hij s
    rw [hi, hj] at this
    exact absurd rfl (this rfl)
  · have hji : j < i := by omega
    have := (List.pairwise_iff_getElem.mp hpw) j i hj' hi' hji s
    rw [hi, hj] at this
    exact absurd rfl (this rfl)

/-- C5 witness: the theorem applied on a concrete one-assignment trace. -/
theorem C5_assignment_injective_witness :
    (matchTrace 0 ["a"] [[(1 : ℝ), 0]] [[(1 : ℝ), 0]] [(0, "x")] []).getD 0
        ("", none) = ("x", some "a") ∧ (0 : ℕ) = 0 := by
  have h : cosine_similarity [(1 : ℝ), 0] [1, 0] = some 1 :=
    cos_same_eval _ _ 1 1 _ (by norm_num) (by norm_num) (by norm_num)
      (by norm_num) (by norm_num)
  have hf : find_closest_match 0 [(1 : ℝ), 0] [[1, 0]] = some 0 := by
    simp only [find_closest_match, List.enum, List.enumFrom, List.map, maxBy,
      List.foldl, h]
    rw [if_pos (by norm_num)]
  have hstep : matchStep 0 ["a"] [[(1 : ℝ), 0]] [[(1 : ℝ), 0]] [] 0 =
      some "a" := by
    simp [matchStep, hf]
  have htr : (matchTrace 0 ["a"] [[(1 : ℝ), 0]] [[(1 : ℝ), 0]] [(0, "x")]
      []).getD 0 ("", none) = ("x", some "a") := by
    rw [matchTrace, hstep, matchTrace]
    rfl
  exact ⟨htr, C5_assignment_injective 0 ["a"] [[(1 : ℝ), 0]] [[(1 : ℝ), 0]]
    [(0, "x")] [] 0 0 "x" "x" "a" htr htr⟩

/-- C8: every similarity below threshold (or NaN) gives no match; an empty
source list gives no match; and concretely `shapeshift` on source `{}` and
target `{"x": 1}` succeeds with result `{"x": null}`. -/
theorem C8_below_threshold_and_empty_source (t : ℝ) (e : List ℝ)
    (es : List (List ℝ))
    (h : ∀ v ∈ es, cosine_similarity e v = none ∨
        ∃ x, cosine_similarity e v = some x ∧ x < t) :
    find_closest_match t e es = none ∧
    find_closest_match t e [] = none ∧
    shapeshift t (.obj []) (.obj [("x", .num 1)]) =
      some ⟨.obj [("x", .null)], [], ["x"], [],
            [[0.2, 0.2, 0.2, 0.2, 0.2]]⟩ := by
  refine ⟨?_, rfl, ?_⟩
  · rcases hm : maxBy ((List.enumFrom 0 es).map
        (fun p => (p.1, cosine_similarity e p.2))) with _ | ⟨idx, sim⟩
    · simp [find_closest_match, List.enum, hm]
    · have hp := maxBy_mem hm
      simp only [List.mem_map] at hp
      obtain ⟨⟨m, v⟩, hmem, heq⟩ := hp
      obtain ⟨h1, h2, h3⟩ := List.mem_enumFrom hmem
      have hv : v ∈ es := by
        rw [h3]
        exact List.getElem_mem _
      obtain ⟨rfl, hsim⟩ : m = idx ∧ cosine_similarity e v = sim := by
        simpa using heq
      rcases h v hv with hnone | ⟨x, hx, hlt⟩
      · rw [hnone] at hsim
        simp [find_closest_match, List.enum, hm, ← hsim]
      · rw [hx] at hsim
        simp only [find_closest_match, List.enum, hm, ← hsim]
        rw [if_neg (not_le.mpr hlt)]
  · have hfs : flatten_object (.obj []) = [] := by decide
    have hft : flatten_object (.obj [("x", .num 1)]) = [("x", .num 1)] := by
      decide
    have hemb : get_embeddings "x" = [0.2, 0.2, 0.2, 0.2, 0.2] := by
      simp [get_embeddings]
    have henum : ((["x"] : List String)).enum = [(0, "x")] := by decide
    have hfe : find_closest_match t [(0.2 : ℝ), 0.2, 0.2, 0.2, 0.2] [] =
        none := rfl
    have hins : insert_nested (.obj []) "x" .null = .obj [("x", .null)] := by
      decide
    have hL : ([[0.2, 0.2, 0.2, 0.2, 0.2]] : List (List ℝ)).length = 1 := rfl
    have hW0 : ([[0.2, 0.2, 0.2, 0.2, 0.2]] : List (List ℝ)).getD 0 [] =
        [0.2, 0.2, 0.2, 0.2, 0.2] := rfl
    have ht0 : (0 : ℕ) < 1 := Nat.one_pos
    simp only [shapeshift, hfs, hft, List.map, hemb, henum, processTargets,
      hL, ht0, if_true, hW0, hfe, hins]

/-- C8 witness. -/
theorem C8_below_threshold_and_empty_source_witness :
    find_closest_match 1 [(1 : ℝ), 0] [[0, 1]] = none ∧
    find_closest_match 1 [(1 : ℝ), 0] [] = none := by
  have h : cosine_similarity [(1 : ℝ), 0] [0, 1] = some 0 :=
    cos_same_eval _ _ 1 0 _ (by norm_num) (by norm_num) (by norm_num)
      (by norm_num) (by norm_num)
  have := C8_below_threshold_and_empty_source 1 [(1 : ℝ), 0] [[0, 1]]
    (by
      intro v hv
      simp only [List.mem_singleton] at hv
      subst hv
      exact Or.inr ⟨0, h, by norm_num⟩)
  exact ⟨this.1, this.2.1⟩

/-- C10: retrieving an accepted dotted source key indexes the flat source
map by the first path segment only — `none` (the `HashMap` index panic)
exactly when that first segment is not itself a flat key; undotted keys
never panic.  Concretely, source `{"location": {"city": "NY"}}` with target
`{"city": ""}` (threshold 0.95) accepts the dotted key `location.city`,
whose first segment `location` is not a flat key, so `shapeshift` panics. -/
theorem C10_dotted_source_key_lookup (flat_source : List (String × Json))
    (source_key : String) :
    (retrieveValue flat_source source_key = none ↔
      containsDot source_key = true ∧
        mapGet flat_source ((splitDot source_key).headD "") = none) ∧
    shapeshift 0.95 (.obj [("location", .obj [("city", .str "NY")])])
      (.obj [("city", .str "")]) = none := by
  constructor
  · unfold retrieveValue
    by_cases hd : containsDot source_key = true
    · simp only [hd, if_true]
      rcases hm : mapGet flat_source ((splitDot source_key).headD "")
        with _ | v0
      · simp [hm]
      · simp [hm]
    · simp only [hd]
      simp [Bool.not_eq_true] at hd
      simp [hd]
  · have hfs : flatten_object (.obj [("location", .obj [("city", .str "NY")])]) =
        [("location.city", .str "NY")] := by decide
    have hft : flatten_object (.obj [("city", .str "")]) =
        [("city", .str "")] := by decide
    have hemb1 : get_embeddings "location.city" = [0, 0, 0.9, 0.1, 0] :=
      emb_location_city
    have hemb2 : get_embeddings "city" = [0, 0, 0.9, 0.1, 0] := emb_city
    have hsim : cosine_similarity [(0 : ℝ), 0, 0.9, 0.1, 0]
        [0, 0, 0.9, 0.1, 0] = some 1 :=
      cos_same_eval _ _ 0.82 0.82 _ (by norm_num) (by norm_num) (by norm_num)
        (by norm_num) (by norm_num)
    have hf : find_closest_match 0.95 [(0 : ℝ), 0, 0.9, 0.1, 0]
        [[0, 0, 0.9, 0.1, 0]] = some 0 := by
      simp only [find_closest_match, List.enum, List.enumFrom, List.map, maxBy,
        List.foldl, hsim]
      rw [if_pos (by norm_num)]
    have henum : ((["city"] : List String)).enum = [(0, "city")] := by decide
    have hg0 : ((["location.city"] : List String)).getD 0 "" =
        "location.city" := by decide
    have hr : retrieveValue [("location.city", .str "NY")] "location.city" =
        none := by decide
    have hL : ([[0, 0, 0.9, 0.1, 0]] : List (List ℝ)).length = 1 := rfl
    have hW0 : ([[0, 0, 0.9, 0.1, 0]] : List (List ℝ)).getD 0 [] =
        [0, 0, 0.9, 0.1, 0] := rfl
    have ht0 : (0 : ℕ) < 1 := Nat.one_pos
    have hne : (("location" : String) = "") = False := by simp
    have happ1 : "location" ++ "." ++ "city" = "location.city" := rfl
    simp only [shapeshift, hfs, hft, hne, happ1, List.map, hemb1, hemb2, henum,
      processTargets, hL, ht0, if_true, hW0, hf, hg0, List.not_mem_nil,
      if_false, hr]

/-! ### Dotted-path algebra: `splitDot` retracts `joinDot` on well-formed
segment lists -/

theorem string_ext {a b : String} (h : a.data = b.data) : a = b := by
  cases a
  cases b
  exact congrArg String.mk h

theorem splitDotCh_ne_nil : ∀ (l : List Char), splitDotCh l ≠ []
  | [] => by simp [splitDotCh]
  | c :: rest => by
    by_cases hc : c = '.'
    · simp [splitDotCh, hc]
    · simp only [splitDotCh, if_neg hc]
      rcases h : splitDotCh rest with _ | ⟨s, ss⟩
      · simp
      · simp

theorem splitDotCh_append_dot :
    ∀ (l₁ l₂ : List Char),
      splitDotCh (l₁ ++ '.' :: l₂) = splitDotCh l₁ ++ splitDotCh l₂
  | [], l₂ => by simp [splitDotCh]
  | c :: rest, l₂ => by
    rw [List.cons_append]
    by_cases hc : c = '.'
    · simp only [splitDotCh, if_pos hc, splitDotCh_append_dot rest l₂,
        List.cons_append]
    · simp only [splitDotCh, if_neg hc, splitDotCh_append_dot rest l₂]
      rcases h : splitDotCh rest with _ | ⟨s, ss⟩
      · exact absurd h (splitDotCh_ne_nil rest)
      · simp [h]

theorem splitDotCh_no_dot :
    ∀ (l : List Char), ¬ l.contains '.' → splitDotCh l = [l]
  | [], _ => rfl
  | c :: rest, h => by
    have hc : ¬ c = '.' := by
      intro hx
      exact h (by simp [hx])
    have hrest : ¬ rest.contains '.' := by
      intro hx
      apply h
      simp at hx ⊢
      exact Or.inr hx
    simp only [splitDotCh, if_neg hc, splitDotCh_no_dot rest hrest]

/-- A usable object key for the round trip: nonempty and free of the
separator `'.'`. -/
def goodKey (k : String) : Bool := !(k == "") && !(k.data.contains '.')

theorem splitDot_good {k : String} (h : goodKey k = true) : splitDot k = [k] := by
  unfold goodKey at h
  simp only [Bool.and_eq_true, Bool.not_eq_true'] at h
  unfold splitDot
  rw [splitDotCh_no_dot k.data (by rw [h.2]; simp)]
  simp

theorem joinDot_cons (k : String) (k' : String) (rest : List String) :
    joinDot (k :: k' :: rest) = k ++ "." ++ joinDot (k' :: rest) := rfl

theorem splitDot_append_dot (a b : String) :
    splitDot (a ++ "." ++ b) = splitDot a ++ splitDot b := by
  unfold splitDot
  rw [show (a ++ "." ++ b).data = a.data ++ '.' :: b.data by
    simp [String.data_append]]
  rw [splitDotCh_append_dot, List.map_append]

theorem splitDot_joinDot :
    ∀ (segs : List String), segs ≠ [] → (∀ k ∈ segs, goodKey k = true) →
      splitDot (joinDot segs) = segs
  | [], h, _ => absurd rfl h
  | [k], _, hg => by
    rw [joinDot, splitDot_good (hg k (by simp))]
  | k :: k' :: rest, _, hg => by
    rw [joinDot_cons, splitDot_append_dot, splitDot_good (hg k (by simp)),
      splitDot_joinDot (k' :: rest) (by simp)
        (fun x hx => hg x (List.mem_cons_of_mem k hx))]
    rfl

theorem joinDot_inj {xs ys : List String}
    (hx : xs ≠ []) (hgx : ∀ k ∈ xs, goodKey k = true)
    (hy : ys ≠ []) (hgy : ∀ k ∈ ys, goodKey k = true)
    (h : joinDot xs = joinDot ys) : xs = ys := by
  have := congrArg splitDot h
  rwa [splitDot_joinDot xs hx hgx, splitDot_joinDot ys hy hgy] at this

/-! ### Order facts about the key order `strLt` -/

theorem charListLt_irrefl : ∀ (l : List Char), charListLt l l = false
  | [] => rfl
  | c :: rest => by
    simp only [charListLt, lt_irrefl, if_false, charListLt_irrefl rest]

theorem charListLt_asymm :
    ∀ (a b : List Char), charListLt a b = true → charListLt b a = false
  | [], [], h => by simp [charListLt] at h
  | [], _ :: _, _ => rfl
  | _ :: _, [], h => by simp [charListLt] at h
  | a :: as, b :: bs, h => by
    simp only [charListLt] at h ⊢
    by_cases hab : a < b
    · rw [if_neg (lt_asymm hab), if_pos hab]
    · rw [if_neg hab] at h
      by_cases hba : b < a
      · rw [if_pos hba] at h
        simp at h
      · rw [if_neg hba, if_neg hab]
        rw [if_neg hba] at h
        exact charListLt_asymm as bs h

theorem strLt_irrefl (k : String) : strLt k k = false := charListLt_irrefl _

theorem strLt_asymm {a b : String} (h : strLt a b = true) : strLt b a = false :=
  charListLt_asymm _ _ h

theorem strLt_ne {a b : String} (h : strLt a b = true) : a ≠ b := by
  intro hx
  subst hx
  rw [strLt_irrefl] at h
  exact absurd h (by simp)

/-! ### Map lemmas -/

theorem mapGet_eq_none_iff :
    ∀ (m : List (String × Json)) (k : String),
      mapGet m k = none ↔ k ∉ m.map Prod.fst
  | [], k => by simp [mapGet]
  | (k', v) :: rest, k => by
    simp only [mapGet, List.map_cons, List.mem_cons]
    by_cases h : k = k'
    · simp [h]
    · simp [h, mapGet_eq_none_iff rest k]

theorem mapInsert_append :
    ∀ (m : List (String × Json)) (k : String) (v : Json),
      (∀ km ∈ m.map Prod.fst, strLt km k = true) →
      mapInsert m k v = m ++ [(k, v)]
  | [], k, v, _ => rfl
  | (k', v') :: rest, k, v, h => by
    have hk' : strLt k' k = true := h k' (by simp)
    rw [mapInsert, if_neg (by simp [strLt_asymm hk']),
      if_neg (strLt_ne hk').symm,
      mapInsert_append rest k v (fun km hm => h km (by simp [hm]))]
    rfl

theorem hmInsert_append :
    ∀ (m : List (String × Json)) (k : String) (v : Json),
      k ∉ m.map Prod.fst → hmInsert m k v = m ++ [(k, v)]
  | [], k, v, _ => rfl
  | (k', v') :: rest, k, v, h => by
    simp only [List.map_cons, List.mem_cons] at h
    push_neg at h
    rw [hmInsert, if_neg h.1, hmInsert_append rest k v h.2]
    rfl

theorem mapGet_mapInsert :
    ∀ (m : List (String × Json)) (k : String) (v : Json),
      mapGet (mapInsert m k v) k = some v
  | [], k, v => by simp [mapInsert, mapGet]
  | (k', v') :: rest, k, v => by
    by_cases h1 : strLt k k' = true
    · simp [mapInsert, h1, mapGet]
    · by_cases h2 : k = k'
      · simp [mapInsert, h1, h2, mapGet, strLt_irrefl]
      · simp [mapInsert, h1, h2, mapGet, mapGet_mapInsert rest k v]

theorem mapInsert_mapInsert :
    ∀ (m : List (String × Json)) (k : String) (v w : Json),
      mapInsert (mapInsert m k v) k w = mapInsert m k w
  | [], k, v, w => by simp [mapInsert, strLt_irrefl]
  | (k', v') :: rest, k, v, w => by
    by_cases h1 : strLt k k' = true
    · simp [mapInsert, h1, strLt_irrefl]
    · by_cases h2 : k = k'
      · simp [mapInsert, h1, h2, strLt_irrefl]
      · simp [mapInsert, h1, h2, mapInsert_mapInsert rest k v w]

/-! ### Well-formedness for the round trip -/

mutual
/-- Well-formedness of a non-root value for the flatten/unflatten round
trip: every object is nonempty with ascending, nonempty, dot-free keys
(as serde_json's sorted maps provide); arrays and scalars are leaves. -/
def WFv : Json → Bool
  | .obj ms => !ms.isEmpty && WFmembers ms
  | _ => true

/-- Well-formedness of an object member list. -/
def WFmembers : List (String × Json) → Bool
  | [] => true
  | (k, w) :: rest =>
    goodKey k && rest.all (fun kv => strLt k kv.1) && WFv w && WFmembers rest
end

/-- Well-formedness of a root value: an object (possibly empty) whose
members are well formed. -/
def WFroot : Json → Bool
  | .obj ms => WFmembers ms
  | _ => false

mutual
/-- The leaf positions of a value: relative segment path and leaf value, in
traversal order. -/
def leavesOf : Json → List (List String × Json)
  | .obj ms => leavesMembers ms
  | v => [([], v)]

/-- Leaf positions contributed by an object member list. -/
def leavesMembers : List (String × Json) → List (List String × Json)
  | [] => []
  | (k, w) :: rest =>
    (leavesOf w).map (fun q => (k :: q.1, q.2)) ++ leavesMembers rest
end

mutual
/-- Rebuild a value with every leaf at relative path `p` replaced by
`g p leaf`. -/
def mapLeavesJ (g : List String → Json → Json) : Json → Json
  | .obj ms => .obj (mapLeavesMembers g ms)
  | v => g [] v

/-- `mapLeavesJ` on an object member list. -/
def mapLeavesMembers (g : List String → Json → Json) :
    List (String × Json) → List (String × Json)
  | [] => []
  | (k, w) :: rest =>
    (k, mapLeavesJ (fun t v => g (k :: t) v) w) :: mapLeavesMembers g rest
end

mutual
theorem mapLeavesJ_id : ∀ (g : List String → Json → Json),
    (∀ p x, g p x = x) → ∀ (v : Json), mapLeavesJ g v = v
  | g, hg, .null => hg [] _
  | g, hg, .bool b => hg [] _
  | g, hg, .num q => hg [] _
  | g, hg, .str s => hg [] _
  | g, hg, .arr a => hg [] _
  | g, hg, .obj ms => by
    rw [mapLeavesJ, mapLeavesMembers_id g hg ms]

theorem mapLeavesMembers_id : ∀ (g : List String → Json → Json),
    (∀ p x, g p x = x) → ∀ (ms : List (String × Json)),
      mapLeavesMembers g ms = ms
  | g, hg, [] => rfl
  | g, hg, (k, w) :: rest => by
    rw [mapLeavesMembers,
      mapLeavesJ_id (fun t v => g (k :: t) v) (fun p x => hg (k :: p) x) w,
      mapLeavesMembers_id g hg rest]
end

theorem leavesMembers_head :
    ∀ (ms : List (String × Json)) (q : List String × Json),
      q ∈ leavesMembers ms →
      ∃ k w t, (k, w) ∈ ms ∧ q.1 = k :: t ∧ (t, q.2) ∈ leavesOf w
  | [], q, h => by simp [leavesMembers] at h
  | (k, w) :: rest, q, h => by
    rw [leavesMembers] at h
    rcases List.mem_append.mp h with hA | hB
    · simp only [List.mem_map] at hA
      obtain ⟨⟨t, x⟩, ht, rfl⟩ := hA
      exact ⟨k, w, t, by simp, rfl, ht⟩
    · obtain ⟨k', w', t, hm, hq, hl⟩ := leavesMembers_head rest q hB
      exact ⟨k', w', t, List.mem_cons_of_mem _ hm, hq, hl⟩

/-- Unpack one step of `WFmembers`. -/
theorem WFmembers_cons {k : String} {w : Json} {rest : List (String × Json)}
    (h : WFmembers ((k, w) :: rest) = true) :
    goodKey k = true ∧ (∀ kv ∈ rest, strLt k kv.1 = true) ∧
      WFv w = true ∧ WFmembers rest = true := by
  rw [WFmembers] at h
  simp only [Bool.and_eq_true, List.all_eq_true] at h
  exact ⟨h.1.1.1, h.1.1.2, h.1.2, h.2⟩

mutual
theorem leavesOf_good : ∀ (v : Json), WFv v = true →
    ∀ q ∈ leavesOf v, ∀ k ∈ q.1, goodKey k = true
  | .obj ms, h, q, hq, k, hk => by
    rw [WFv] at h
    simp only [Bool.and_eq_true] at h
    exact leavesMembers_good ms h.2 q (by rwa [leavesOf] at hq) k hk
  | .null, _, q, hq, k, hk => by
    simp only [leavesOf, List.mem_singleton] at hq
    subst hq
    simp at hk
  | .bool b, _, q, hq, k, hk => by
    simp only [leavesOf, List.mem_singleton] at hq
    subst hq
    simp at hk
  | .num n, _, q, hq, k, hk => by
    simp only [leavesOf, List.mem_singleton] at hq
    subst hq
    simp at hk
  | .str s, _, q, hq, k, hk => by
    simp only [leavesOf, List.mem_singleton] at hq
    subst hq
    simp at hk
  | .arr a, _, q, hq, k, hk => by
    simp only [leavesOf, List.mem_singleton] at hq
    subst hq
    simp at hk

theorem leavesMembers_good : ∀ (ms : List (String × Json)),
    WFmembers ms = true →
    ∀ q ∈ leavesMembers ms, ∀ k ∈ q.1, goodKey k = true
  | [], _, q, hq, _, _ => by simp [leavesMembers] at hq
  | (k0, w) :: rest, h, q, hq, k, hk => by
    obtain ⟨hgood, _, hw, hrest⟩ := WFmembers_cons h
    rw [leavesMembers] at hq
    rcases List.mem_append.mp hq with hA | hB
    · simp only [List.mem_map] at hA
      obtain ⟨⟨t, x⟩, ht, rfl⟩ := hA
      simp only [List.mem_cons] at hk
      rcases hk with rfl | hk
      · exact hgood
      · exact leavesOf_good w hw (t, x) ht k hk
    · exact leavesMembers_good rest hrest q hB k hk
end

mutual
theorem leavesOf_ne_nil : ∀ (v : Json), WFv v = true → leavesOf v ≠ []
  | .obj ms, h => by
    rw [WFv] at h
    simp only [Bool.and_eq_true, Bool.not_eq_true', List.isEmpty_eq_false] at h
    rw [leavesOf]
    exact leavesMembers_ne_nil ms h.2 h.1
  | .null, _ => by simp [leavesOf]
  | .bool b, _ => by simp [leavesOf]
  | .num n, _ => by simp [leavesOf]
  | .str s, _ => by simp [leavesOf]
  | .arr a, _ => by simp [leavesOf]

theorem leavesMembers_ne_nil : ∀ (ms : List (String × Json)),
    WFmembers ms = true → ms ≠ [] → leavesMembers ms ≠ []
  | [], _, hne => absurd rfl hne
  | (k, w) :: rest, h, _ => by
    obtain ⟨_, _, hw, _⟩ := WFmembers_cons h
    rw [leavesMembers]
    intro hx
    rcases List.append_eq_nil.mp hx with ⟨hA, _⟩
    exact leavesOf_ne_nil w hw (List.map_eq_nil.mp hA)
end

theorem leavesMembers_path_ne_nil {ms : List (String × Json)}
    {q : List String × Json} (h : q ∈ leavesMembers ms) : q.1 ≠ [] := by
  obtain ⟨k, w, t, _, hq, _⟩ := leavesMembers_head ms q h
  simp [hq]

mutual
theorem leavesOf_paths_nodup : ∀ (v : Json), WFv v = true →
    ((leavesOf v).map Prod.fst).Nodup
  | .obj ms, h => by
    rw [WFv] at h
    simp only [Bool.and_eq_true] at h
    rw [leavesOf]
    exact leavesMembers_paths_nodup ms h.2
  | .null, _ => by simp [leavesOf]
  | .bool b, _ => by simp [leavesOf]
  | .num n, _ => by simp [leavesOf]
  | .str s, _ => by simp [leavesOf]
  | .arr a, _ => by simp [leavesOf]

theorem leavesMembers_paths_nodup : ∀ (ms : List (String × Json)),
    WFmembers ms = true → ((leavesMembers ms).map Prod.fst).Nodup
  | [], _ => by simp [leavesMembers]
  | (k, w) :: rest, h => by
    obtain ⟨_, hlt, hw, hrest⟩ := WFmembers_cons h
    rw [leavesMembers, List.map_append]
    rw [List.nodup_append]
    refine ⟨?_, leavesMembers_paths_nodup rest hrest, ?_⟩
    · have hinner := leavesOf_paths_nodup w hw
      rw [List.map_map]
      have : (Prod.fst ∘ fun q : List String × Json => (k :: q.1, q.2)) =
          (fun t => k :: t) ∘ Prod.fst := by
        funext q
        rfl
      rw [this, ← List.map_map]
      exact hinner.map (fun a b hab => by simpa using hab)
    · intro p hp hp'
      simp only [List.map_map, List.mem_map] at hp
      obtain ⟨⟨t, x⟩, _, rfl⟩ := hp
      simp only [List.mem_map] at hp'
      obtain ⟨q', hq', hfst⟩ := hp'
      obtain ⟨k', w', t', hm', hq1', _⟩ := leavesMembers_head rest q' hq'
      rw [hq1'] at hfst
      have hkk : k' = k := by
        have := congrArg (fun l => l.headD "") hfst
        simpa using this
      have := hlt (k', w') hm'
      rw [hkk] at this
      rw [strLt_irrefl] at this
      exact absurd this (by simp)
end

/-- Distinctness of the flat keys of a well-formed member list. -/
theorem leavesMembers_keys_nodup {ms : List (String × Json)}
    (h : WFmembers ms = true) :
    ((leavesMembers ms).map (fun q => joinDot q.1)).Nodup := by
  have hpaths := leavesMembers_paths_nodup ms h
  have : (leavesMembers ms).map (fun q => joinDot q.1) =
      ((leavesMembers ms).map Prod.fst).map joinDot := by
    rw [List.map_map]
    rfl
  rw [this]
  refine List.Nodup.map_on ?_ hpaths
  intro x hx y hy hxy
  simp only [List.mem_map] at hx hy
  obtain ⟨qx, hqx, rfl⟩ := hx
  obtain ⟨qy, hqy, rfl⟩ := hy
  exact joinDot_inj (leavesMembers_path_ne_nil hqx)
    (fun k hk => leavesMembers_good ms h qx hqx k hk)
    (leavesMembers_path_ne_nil hqy)
    (fun k hk => leavesMembers_good ms h qy hqy k hk) hxy

/-! ### `flatten_object` computes the joined leaf paths -/

theorem goodKey_ne_empty {k : String} (h : goodKey k = true) : k ≠ "" := by
  unfold goodKey at h
  simp only [Bool.and_eq_true, Bool.not_eq_true'] at h
  simpa using h.1

theorem joinDot_ne_empty :
    ∀ (p : List String), p ≠ [] → (∀ k ∈ p, goodKey k = true) →
      joinDot p ≠ ""
  | [], h, _ => absurd rfl h
  | [k], _, hg => by
    rw [joinDot]
    exact goodKey_ne_empty (hg k (by simp))
  | k :: k' :: rest, _, hg => by
    rw [joinDot_cons]
    intro hx
    have := congrArg String.data hx
    simp [String.data_append] at this

theorem joinDot_append_single :
    ∀ (p : List String) (k : String), p ≠ [] →
      joinDot (p ++ [k]) = joinDot p ++ "." ++ k
  | [], k, h => absurd rfl h
  | [a], k, _ => rfl
  | a :: b :: rest, k, _ => by
    show joinDot (a :: b :: (rest ++ [k])) = _
    rw [joinDot_cons, joinDot_cons]
    rw [show b :: (rest ++ [k]) = (b :: rest) ++ [k] from rfl]
    rw [joinDot_append_single (b :: rest) k (by simp)]
    simp [String.append_assoc]

theorem prefix_step (p : List String) (k : String)
    (hg : ∀ k' ∈ p, goodKey k' = true) :
    (if joinDot p = "" then k else joinDot p ++ "." ++ k) =
      joinDot (p ++ [k]) := by
  rcases p with _ | ⟨a, rest⟩
  · simp [joinDot]
  · rw [if_neg (joinDot_ne_empty (a :: rest) (by simp) hg),
      joinDot_append_single (a :: rest) k (by simp)]

mutual
theorem flatten_recursive_eq : ∀ (v : Json) (p : List String)
    (acc : List (String × Json)), WFv v = true →
    (∀ k ∈ p, goodKey k = true) →
    (∀ q ∈ leavesOf v, joinDot (p ++ q.1) ∉ acc.map Prod.fst) →
    flatten_recursive v (joinDot p) acc =
      acc ++ (leavesOf v).map (fun q => (joinDot (p ++ q.1), q.2))
  | .obj ms, p, acc, h, hgp, hdisj => by
    rw [WFv] at h
    simp only [Bool.and_eq_true] at h
    rw [flatten_recursive, leavesOf]
    exact flattenMembers_eq ms p acc h.2 hgp
      (fun q hq => hdisj q (by rwa [leavesOf]))
  | .null, p, acc, _, _, hdisj => by
    have he : flatten_recursive (Json.null) (joinDot p) acc =
        hmInsert acc (joinDot p) (Json.null) := rfl
    rw [he,
      hmInsert_append acc _ _ (by simpa using hdisj ([], .null) (by simp [leavesOf]))]
    simp [leavesOf]
  | .bool b, p, acc, _, _, hdisj => by
    have he : flatten_recursive (Json.bool b) (joinDot p) acc =
        hmInsert acc (joinDot p) (Json.bool b) := rfl
    rw [he,
      hmInsert_append acc _ _ (by simpa using hdisj ([], .bool b) (by simp [leavesOf]))]
    simp [leavesOf]
  | .num n, p, acc, _, _, hdisj => by
    have he : flatten_recursive (Json.num n) (joinDot p) acc =
        hmInsert acc (joinDot p) (Json.num n) := rfl
    rw [he,
      hmInsert_append acc _ _ (by simpa using hdisj ([], .num n) (by simp [leavesOf]))]
    simp [leavesOf]
  | .str s, p, acc, _, _, hdisj => by
    have he : flatten_recursive (Json.str s) (joinDot p) acc =
        hmInsert acc (joinDot p) (Json.str s) := rfl
    rw [he,
      hmInsert_append acc _ _ (by simpa using hdisj ([], .str s) (by simp [leavesOf]))]
    simp [leavesOf]
  | .arr a, p, acc, _, _, hdisj => by
    have he : flatten_recursive (Json.arr a) (joinDot p) acc =
        hmInsert acc (joinDot p) (Json.arr a) := rfl
    rw [he,
      hmInsert_append acc _ _ (by simpa using hdisj ([], .arr a) (by simp [leavesOf]))]
    simp [leavesOf]

theorem flattenMembers_eq : ∀ (ms : List (String × Json)) (p : List String)
    (acc : List (String × Json)), WFmembers ms = true →
    (∀ k ∈ p, goodKey k = true) →
    (∀ q ∈ leavesMembers ms, joinDot (p ++ q.1) ∉ acc.map Prod.fst) →
    flattenMembers ms (joinDot p) acc =
      acc ++ (leavesMembers ms).map (fun q => (joinDot (p ++ q.1), q.2))
  | [], p, acc, _, _, _ => by simp [flattenMembers, leavesMembers]
  | (k, w) :: rest, p, acc, h, hgp, hdisj => by
    obtain ⟨hgood, hlt, hw, hrest⟩ := WFmembers_cons h
    have hgpk : ∀ k' ∈ p ++ [k], goodKey k' = true := by
      intro k' hk'
      rcases List.mem_append.mp hk' with hk' | hk'
      · exact hgp k' hk'
      · simp only [List.mem_singleton] at hk'
        subst hk'
        exact hgood
    rw [flattenMembers, prefix_step p k hgp,
      flatten_recursive_eq w (p ++ [k]) acc hw hgpk (fun q hq => by
        rw [List.append_assoc]
        exact hdisj (k :: q.1, q.2)
          (by
            rw [leavesMembers]
            exact List.mem_append_left _ (List.mem_map.mpr ⟨q, hq, rfl⟩)))]
    rw [flattenMembers_eq rest p _ hrest hgp (fun q' hq' => by
      rw [List.map_append, List.mem_append]
      push_neg
      constructor
      · exact hdisj q' (by
          rw [leavesMembers]
          exact List.mem_append_right _ hq')
      · intro hx
        simp only [List.map_map, List.mem_map, Function.comp] at hx
        obtain ⟨q, hq, hkey⟩ := hx
        obtain ⟨k', w', t', hm', hq1', _⟩ := leavesMembers_head rest q' hq'
        have hpaths : p ++ k :: q.1 = p ++ q'.1 := by
          refine joinDot_inj (by simp) ?_ ?_ ?_ ?_
          · intro x hx'
            rcases List.mem_append.mp hx' with hx' | hx'
            · exact hgp x hx'
            · simp only [List.mem_cons] at hx'
              rcases hx' with rfl | hx'
              · exact hgood
              · exact leavesOf_good w hw q hq x hx'
          · rw [hq1']
            simp
          · intro x hx'
            rcases List.mem_append.mp hx' with hx' | hx'
            · exact hgp x hx'
            · exact leavesMembers_good rest hrest q' hq' x hx'
          · rw [List.append_assoc] at hkey
            exact hkey
        rw [hq1'] at hpaths
        have hheads : k = k' := by
          have := List.append_cancel_left hpaths
          simpa using congrArg (fun l => l.headD "") this
        have := hlt (k', w') hm'
        rw [← hheads, strLt_irrefl] at this
        exact absurd this (by simp))]
    rw [leavesMembers, List.map_append, List.append_assoc]
    congr 1
    congr 1
    rw [List.map_map]
    refine List.map_congr_left ?_
    intro q _
    simp only [Function.comp]
    rw [List.append_assoc]
    rfl
end

/-- `flatten_object` on a well-formed (object-rooted) value lists exactly
the leaves in traversal order, keyed by their dotted paths. -/
theorem flatten_object_eq {ms : List (String × Json)}
    (h : WFmembers ms = true) :
    flatten_object (.obj ms) =
      (leavesMembers ms).map (fun q => (joinDot q.1, q.2)) := by
  have := flattenMembers_eq ms [] [] h (by simp) (by simp)
  rw [show joinDot [] = "" from rfl] at this
  unfold flatten_object
  rw [flatten_recursive, this]
  simp

/-! ### The unflatten fold rebuilds the tree -/

/-- `unflatten_object`'s fold, recast as a recursion over path/value pairs
(the keys already split into segments). -/
def insertPathsFold : List (List String × Json) → List (String × Json) →
    Option (List (String × Json))
  | [], m => some m
  | (pth, v) :: rest, m =>
    match insertFlatParts m pth v with
    | none => none
    | some m2 => insertPathsFold rest m2

theorem unflattenFold_none :
    ∀ (L : List (String × Json)),
      L.foldl (fun acc kv =>
        acc.bind (fun mm => insertFlatParts mm (splitDot kv.1) kv.2))
        none = none
  | [] => rfl
  | kv :: rest => by
    rw [List.foldl_cons]
    exact unflattenFold_none rest

theorem unflattenFold_eq_paths :
    ∀ (L : List (List String × Json)) (m : List (String × Json)),
      (∀ q ∈ L, q.1 ≠ [] ∧ ∀ k ∈ q.1, goodKey k = true) →
      (L.map (fun q => (joinDot q.1, q.2))).foldl
        (fun acc kv =>
          acc.bind (fun mm => insertFlatParts mm (splitDot kv.1) kv.2))
        (some m) = insertPathsFold L m
  | [], m, _ => rfl
  | (pth, v) :: rest, m, h => by
    obtain ⟨hne, hgood⟩ := h (pth, v) (by simp)
    rw [List.map_cons, List.foldl_cons]
    simp only [Option.some_bind]
    rw [splitDot_joinDot pth hne hgood]
    rw [insertPathsFold]
    rcases hi : insertFlatParts m pth v with _ | m2
    · exact unflattenFold_none _
    · exact unflattenFold_eq_paths rest m2
        (fun q hq => h q (List.mem_cons_of_mem _ hq))

/-- The object the walk continues into at key `k` (empty when the key is
absent, the member object when present). -/
def childObj (m : List (String × Json)) (k : String) : List (String × Json) :=
  match mapGet m k with
  | some (.obj inner) => inner
  | _ => []

theorem insertFlatParts_cons_step (m : List (String × Json)) (k : String)
    (t : List String) (v : Json) (ht : t ≠ [])
    (hchild : mapGet m k = none ∨ ∃ inner, mapGet m k = some (.obj inner)) :
    insertFlatParts m (k :: t) v =
      (insertFlatParts (childObj m k) t v).map
        (fun inner2 => mapInsert m k (.obj inner2)) := by
  rcases t with _ | ⟨t1, trest⟩
  · exact absurd rfl ht
  · have he : insertFlatParts m (k :: t1 :: trest) v =
        match mapGet m k with
        | some (.obj inner) =>
          (insertFlatParts inner (t1 :: trest) v).map
            (fun i2 => mapInsert m k (.obj i2))
        | some _ => none
        | none =>
          (insertFlatParts [] (t1 :: trest) v).map
            (fun i2 => mapInsert m k (.obj i2)) := rfl
    rcases hchild with hc | ⟨inner, hc⟩
    · rw [he, hc]
      unfold childObj
      rw [hc]
    · rw [he, hc]
      unfold childObj
      rw [hc]

theorem childObj_mapInsert (m : List (String × Json)) (k : String)
    (inner : List (String × Json)) :
    childObj (mapInsert m k (.obj inner)) k = inner := by
  unfold childObj
  rw [mapGet_mapInsert]

theorem insertPathsFold_append :
    ∀ (A B : List (List String × Json)) (m : List (String × Json)),
      insertPathsFold (A ++ B) m =
        (insertPathsFold A m).bind (fun m2 => insertPathsFold B m2)
  | [], B, m => rfl
  | (pth, v) :: A', B, m => by
    have h1 : insertPathsFold (((pth, v) :: A') ++ B) m =
        match insertFlatParts m pth v with
        | none => none
        | some m2 => insertPathsFold (A' ++ B) m2 := rfl
    have h2 : insertPathsFold ((pth, v) :: A') m =
        match insertFlatParts m pth v with
        | none => none
        | some m2 => insertPathsFold A' m2 := rfl
    rw [h1, h2]
    rcases hi : insertFlatParts m pth v with _ | m2
    · rfl
    · exact insertPathsFold_append A' B m2

theorem insertPathsFold_batch (k : String) :
    ∀ (B : List (List String × Json)) (m : List (String × Json)),
      B ≠ [] →
      (∀ q ∈ B, ∃ t, q.1 = k :: t ∧ t ≠ []) →
      (mapGet m k = none ∨ ∃ inner, mapGet m k = some (.obj inner)) →
      insertPathsFold B m =
        (insertPathsFold (B.map (fun q => (q.1.tail, q.2))) (childObj m k)).map
          (fun inner => mapInsert m k (.obj inner))
  | [], _, hne, _, _ => absurd rfl hne
  | [(pth, v)], m, _, hsh, hchild => by
    obtain ⟨t, hpth, ht⟩ := hsh (pth, v) (by simp)
    have hp2 : pth = k :: t := hpth
    subst hp2
    have hstep := insertFlatParts_cons_step m k t v ht hchild
    rcases hi : insertFlatParts (childObj m k) t v with _ | X
    · have hfs : insertFlatParts m (k :: t) v = none := by
        rw [hstep, hi]
        rfl
      have hL : insertPathsFold [(k :: t, v)] m = none := by
        rw [insertPathsFold, hfs]
      have hR : insertPathsFold ([(k :: t, v)].map (fun q => (q.1.tail, q.2)))
          (childObj m k) = none := by
        have h0 : insertPathsFold ([(k :: t, v)].map (fun q => (q.1.tail, q.2)))
            (childObj m k) = insertPathsFold [(t, v)] (childObj m k) := rfl
        rw [h0, insertPathsFold, hi]
      rw [hL, hR]
      rfl
    · have hfs : insertFlatParts m (k :: t) v = some (mapInsert m k (.obj X)) := by
        rw [hstep, hi]
        rfl
      have hL : insertPathsFold [(k :: t, v)] m = some (mapInsert m k (.obj X)) := by
        rw [insertPathsFold, hfs]
        rfl
      have hR : insertPathsFold ([(k :: t, v)].map (fun q => (q.1.tail, q.2)))
          (childObj m k) = some X := by
        have h0 : insertPathsFold ([(k :: t, v)].map (fun q => (q.1.tail, q.2)))
            (childObj m k) = insertPathsFold [(t, v)] (childObj m k) := rfl
        rw [h0, insertPathsFold, hi]
        rfl
      rw [hL, hR]
      rfl
  | (pth, v) :: q0 :: rest, m, _, hsh, hchild => by
    obtain ⟨t, hpth, ht⟩ := hsh (pth, v) (by simp)
    have hp2 : pth = k :: t := hpth
    subst hp2
    have hstep := insertFlatParts_cons_step m k t v ht hchild
    rcases hi : insertFlatParts (childObj m k) t v with _ | X
    · have hfs : insertFlatParts m (k :: t) v = none := by
        rw [hstep, hi]
        rfl
      have hL : insertPathsFold ((k :: t, v) :: q0 :: rest) m = none := by
        rw [insertPathsFold, hfs]
      have hR : insertPathsFold (((k :: t, v) :: q0 :: rest).map
          (fun q => (q.1.tail, q.2))) (childObj m k) = none := by
        have h0 : insertPathsFold (((k :: t, v) :: q0 :: rest).map
            (fun q => (q.1.tail, q.2))) (childObj m k) =
            insertPathsFold ((t, v) :: (q0 :: rest).map (fun q => (q.1.tail, q.2)))
              (childObj m k) := rfl
        rw [h0, insertPathsFold, hi]
      rw [hL, hR]
      rfl
    · have hfs : insertFlatParts m (k :: t) v = some (mapInsert m k (.obj X)) := by
        rw [hstep, hi]
        rfl
      have hL : insertPathsFold ((k :: t, v) :: q0 :: rest) m =
          insertPathsFold (q0 :: rest) (mapInsert m k (.obj X)) := by
        rw [insertPathsFold, hfs]
      have hR : insertPathsFold (((k :: t, v) :: q0 :: rest).map
          (fun q => (q.1.tail, q.2))) (childObj m k) =
          insertPathsFold ((q0 :: rest).map (fun q => (q.1.tail, q.2))) X := by
        have h0 : insertPathsFold (((k :: t, v) :: q0 :: rest).map
            (fun q => (q.1.tail, q.2))) (childObj m k) =
            insertPathsFold ((t, v) :: (q0 :: rest).map (fun q => (q.1.tail, q.2)))
              (childObj m k) := rfl
        rw [h0, insertPathsFold, hi]
      have hIH := insertPathsFold_batch k (q0 :: rest) (mapInsert m k (.obj X))
        (by simp) (fun q hq => hsh q (List.mem_cons_of_mem _ hq))
        (Or.inr ⟨X, mapGet_mapInsert m k (.obj X)⟩)
      rw [childObj_mapInsert] at hIH
      rw [hL, hR, hIH]
      cases insertPathsFold ((q0 :: rest).map (fun q => (q.1.tail, q.2))) X with
      | none => rfl
      | some Y =>
        simp only [Option.map_some']
        rw [mapInsert_mapInsert]

mutual
/-- Inserting the prefixed leaves of a well-formed value `w` under key `k`
into `m` (whose keys all precede `k`) appends the rebuilt member `(k, w)`,
with each leaf transformed by `g`. -/
theorem unflatten_node :
    ∀ (w : Json), WFv w = true →
    ∀ (g : List String → Json → Json) (k : String) (m : List (String × Json)),
      (∀ km ∈ m.map Prod.fst, strLt km k = true) →
      insertPathsFold ((leavesOf w).map
          (fun q => (k :: q.1, g (k :: q.1) q.2))) m =
        some (m ++ [(k, mapLeavesJ (fun t v => g (k :: t) v) w)])
  | .null, _, g, k, m, hmlt => by
    have he : insertPathsFold ((leavesOf (Json.null)).map
        (fun q => (k :: q.1, g (k :: q.1) q.2))) m =
        some (mapInsert m k (g [k] (Json.null))) := rfl
    rw [he, mapInsert_append m k _ hmlt]
    rfl
  | .bool b, _, g, k, m, hmlt => by
    have he : insertPathsFold ((leavesOf (Json.bool b)).map
        (fun q => (k :: q.1, g (k :: q.1) q.2))) m =
        some (mapInsert m k (g [k] (Json.bool b))) := rfl
    rw [he, mapInsert_append m k _ hmlt]
    rfl
  | .num x, _, g, k, m, hmlt => by
    have he : insertPathsFold ((leavesOf (Json.num x)).map
        (fun q => (k :: q.1, g (k :: q.1) q.2))) m =
        some (mapInsert m k (g [k] (Json.num x))) := rfl
    rw [he, mapInsert_append m k _ hmlt]
    rfl
  | .str s, _, g, k, m, hmlt => by
    have he : insertPathsFold ((leavesOf (Json.str s)).map
        (fun q => (k :: q.1, g (k :: q.1) q.2))) m =
        some (mapInsert m k (g [k] (Json.str s))) := rfl
    rw [he, mapInsert_append m k _ hmlt]
    rfl
  | .arr a, _, g, k, m, hmlt => by
    have he : insertPathsFold ((leavesOf (Json.arr a)).map
        (fun q => (k :: q.1, g (k :: q.1) q.2))) m =
        some (mapInsert m k (g [k] (Json.arr a))) := rfl
    rw [he, mapInsert_append m k _ hmlt]
    rfl
  | .obj inner, hWF, g, k, m, hmlt => by
    have hw : (!inner.isEmpty && WFmembers inner) = true := hWF
    have hparts : inner ≠ [] ∧ WFmembers inner = true := by
      simp only [Bool.and_eq_true, Bool.not_eq_true', List.isEmpty_eq_false] at hw
      exact hw
    have hAne : ((leavesMembers inner).map
        (fun q => (k :: q.1, g (k :: q.1) q.2))) ≠ [] := by
      intro hx
      exact leavesMembers_ne_nil inner hparts.2 hparts.1 (List.map_eq_nil.mp hx)
    have hsh : ∀ q ∈ (leavesMembers inner).map
        (fun q => (k :: q.1, g (k :: q.1) q.2)), ∃ t, q.1 = k :: t ∧ t ≠ [] := by
      intro q hq
      simp only [List.mem_map] at hq
      obtain ⟨q0, hq0, rfl⟩ := hq
      exact ⟨q0.1, rfl, leavesMembers_path_ne_nil hq0⟩
    have hnone : mapGet m k = none := by
      rw [mapGet_eq_none_iff]
      intro hk
      exact strLt_ne (hmlt k hk) rfl
    have hbatch := insertPathsFold_batch k
      ((leavesMembers inner).map (fun q => (k :: q.1, g (k :: q.1) q.2))) m
      hAne hsh (Or.inl hnone)
    have hco : childObj m k = [] := by
      unfold childObj
      rw [hnone]
    have htails : ((leavesMembers inner).map
        (fun q => (k :: q.1, g (k :: q.1) q.2))).map (fun q => (q.1.tail, q.2)) =
        (leavesMembers inner).map
          (fun q => (q.1, (fun t v => g (k :: t) v) q.1 q.2)) := by
      rw [List.map_map]
      rfl
    have hrec := unflatten_members inner hparts.2 (fun t v => g (k :: t) v) []
      (by simp)
    have hA0 : leavesOf (Json.obj inner) = leavesMembers inner := rfl
    rw [hA0, hbatch, hco, htails, hrec]
    simp only [Option.map_some', List.nil_append]
    rw [mapInsert_append m k _ hmlt]
    rfl

/-- Inserting all leaves of a well-formed member list after `m` (whose keys
all precede every key of the list) appends the rebuilt members. -/
theorem unflatten_members :
    ∀ (ms : List (String × Json)), WFmembers ms = true →
    ∀ (g : List String → Json → Json) (m : List (String × Json)),
      (∀ km ∈ m.map Prod.fst, ∀ kv ∈ ms, strLt km kv.1 = true) →
      insertPathsFold ((leavesMembers ms).map (fun q => (q.1, g q.1 q.2))) m =
        some (m ++ mapLeavesMembers g ms)
  | [], _, g, m, _ => by
    simp [insertPathsFold, leavesMembers, mapLeavesMembers]
  | (k, w) :: rest, h, g, m, hmlt => by
    obtain ⟨hgk, hklt, hWFw, hWFrest⟩ := WFmembers_cons h
    have hsplit : leavesMembers ((k, w) :: rest) =
        (leavesOf w).map (fun q => (k :: q.1, q.2)) ++ leavesMembers rest := by
      rw [leavesMembers]
    rw [hsplit, List.map_append, insertPathsFold_append]
    have hA : ((leavesOf w).map (fun q => (k :: q.1, q.2))).map
        (fun q => (q.1, g q.1 q.2)) =
        (leavesOf w).map (fun q => (k :: q.1, g (k :: q.1) q.2)) := by
      rw [List.map_map]
      rfl
    rw [hA, unflatten_node w hWFw g k m
      (fun km hkm => hmlt km hkm (k, w) (by simp))]
    simp only [Option.some_bind]
    have hmlt2 : ∀ km ∈ (m ++ [(k, mapLeavesJ (fun t v => g (k :: t) v) w)]).map
        Prod.fst, ∀ kv ∈ rest, strLt km kv.1 = true := by
      intro km hkm kv hkv
      rw [List.map_append] at hkm
      rcases List.mem_append.mp hkm with h1 | h2
      · exact hmlt km h1 kv (List.mem_cons_of_mem _ hkv)
      · simp only [List.map_cons, List.map_nil, List.mem_singleton] at h2
        subst h2
        exact hklt kv hkv
    rw [unflatten_members rest hWFrest g
      (m ++ [(k, mapLeavesJ (fun t v => g (k :: t) v) w)]) hmlt2]
    rw [List.append_assoc, List.singleton_append]
    rfl
end

/-- `List.map` with the identity on pairs written componentwise. -/
theorem map_pair_id :
    ∀ (L : List (List String × Json)), L.map (fun q => (q.1, q.2)) = L
  | [] => rfl
  | a :: L => by
    rw [List.map_cons, map_pair_id L]

/-- `unflatten_object` rebuilds a well-formed member list from its joined
leaves. -/
theorem unflatten_flatten (ms : List (String × Json))
    (h : WFmembers ms = true) :
    unflatten_object ((leavesMembers ms).map (fun q => (joinDot q.1, q.2))) =
      some (.obj ms) := by
  unfold unflatten_object
  rw [unflattenFold_eq_paths (leavesMembers ms) []
    (fun q hq => ⟨leavesMembers_path_ne_nil hq, leavesMembers_good ms h q hq⟩)]
  have hm := unflatten_members ms h (fun _ x => x) [] (by simp)
  have hmm : (leavesMembers ms).map
      (fun q => (q.1, (fun (_ : List String) (x : Json) => x) q.1 q.2)) =
      leavesMembers ms :=
    map_pair_id (leavesMembers ms)
  rw [hmm] at hm
  rw [mapLeavesMembers_id (fun _ x => x) (fun _ _ => rfl) ms,
    List.nil_append] at hm
  rw [hm]
  rfl

/-- C2: the flatten/unflatten round trip is the identity on well-formed
values: object roots all of whose nested objects are nonempty and whose
keys are nonempty and dot-free (`WFroot`). As stated over all values
"composed only of nested objects and scalars" the claim fails (see the
counterexample): a scalar root flattens to the key `""` and unflattens to
`{ "": v }`, not back to `v`. -/
theorem C2_flatten_unflatten_roundtrip (v : Json) (h : WFroot v = true) :
    unflatten_object (flatten_object v) = some v := by
  rcases v with _ | b | x | s | a | ms
  · exact Bool.noConfusion h
  · exact Bool.noConfusion h
  · exact Bool.noConfusion h
  · exact Bool.noConfusion h
  · exact Bool.noConfusion h
  · have hms : WFmembers ms = true := h
    rw [flatten_object_eq hms]
    exact unflatten_flatten ms hms

theorem C2_flatten_unflatten_roundtrip_witness :
    WFroot (Json.obj [("a", .num 1), ("b", .obj [("c", .str "x")])]) = true ∧
      unflatten_object (flatten_object
          (Json.obj [("a", .num 1), ("b", .obj [("c", .str "x")])])) =
        some (Json.obj [("a", .num 1), ("b", .obj [("c", .str "x")])]) :=
  ⟨by decide, C2_flatten_unflatten_roundtrip _ (by decide)⟩

/-- C2 counterexample to the claim as stated: a scalar root is "composed
only of nested objects and scalars", yet the round trip turns `30` into
`{ "": 30 }`. -/
theorem C2_roundtrip_cex :
    unflatten_object (flatten_object (Json.num 30)) =
        some (Json.obj [("", Json.num 30)]) ∧
      Json.obj [("", Json.num 30)] ≠ Json.num 30 :=
  ⟨by decide, by decide⟩

/-! ### The loop result as a fold of insert_nested -/

/-- The result accumulator of the match loop as a plain fold: the loop
performs one `insert_nested` per target key, whatever value the match
decision produced. -/
def insertKeysFold : List (String × Json) → Json → Json
  | [], cur => cur
  | (k, v) :: rest, cur => insertKeysFold rest (insert_nested cur k v)

/-- First-match lookup of a segment path in an association list. -/
def pathLookup : List (List String × Json) → List String → Option Json
  | [], _ => none
  | (p, v) :: rest, q => if q = p then some v else pathLookup rest q

/-- Wherever `unflatten_object`'s walk succeeds, `insert_nested`'s walk
(src/lib.rs:124-141) takes the same steps: both descend through existing
objects and create missing intermediates, and `insert_nested` can only
differ by overwriting a non-object intermediate — exactly where
`insertFlatParts` panics. -/
theorem insertNestedParts_of_flat :
    ∀ (parts : List String) (m m' : List (String × Json)) (v : Json),
      parts ≠ [] →
      insertFlatParts m parts v = some m' →
      insertNestedParts (.obj m) parts v = .obj m'
  | [], _, _, _, hne, _ => absurd rfl hne
  | [p], m, m', v, _, h => by
    have h2 : some (mapInsert m p v) = some m' := h
    have h3 : mapInsert m p v = m' := Option.some.inj h2
    rw [← h3]
    rfl
  | p :: p2 :: rest, m, m', v, _, h => by
    have he : insertFlatParts m (p :: p2 :: rest) v =
        match mapGet m p with
        | some (.obj inner) =>
          (insertFlatParts inner (p2 :: rest) v).map
            (fun i2 => mapInsert m p (.obj i2))
        | some _ => none
        | none =>
          (insertFlatParts [] (p2 :: rest) v).map
            (fun i2 => mapInsert m p (.obj i2)) := rfl
    rw [he] at h
    have hN : insertNestedParts (.obj m) (p :: p2 :: rest) v =
        match mapGet m p with
        | some child =>
          .obj (mapInsert m p (insertNestedParts child (p2 :: rest) v))
        | none =>
          .obj (mapInsert m p (insertNestedParts (.obj []) (p2 :: rest) v)) := rfl
    rw [hN]
    cases hg : mapGet m p with
    | none =>
      rw [hg] at h
      have h2 : Option.map (fun i2 => mapInsert m p (Json.obj i2))
          (insertFlatParts [] (p2 :: rest) v) = some m' := h
      show Json.obj (mapInsert m p (insertNestedParts (Json.obj [])
        (p2 :: rest) v)) = Json.obj m'
      cases hf : insertFlatParts [] (p2 :: rest) v with
      | none =>
        rw [hf] at h2
        exact Option.noConfusion h2
      | some inner2 =>
        rw [hf] at h2
        have hm' : mapInsert m p (.obj inner2) = m' := Option.some.inj h2
        rw [insertNestedParts_of_flat (p2 :: rest) [] inner2 v (by simp) hf, hm']
    | some child =>
      rw [hg] at h
      cases child with
      | obj inner =>
        have h2 : Option.map (fun i2 => mapInsert m p (Json.obj i2))
            (insertFlatParts inner (p2 :: rest) v) = some m' := h
        show Json.obj (mapInsert m p (insertNestedParts (Json.obj inner)
          (p2 :: rest) v)) = Json.obj m'
        cases hf : insertFlatParts inner (p2 :: rest) v with
        | none =>
          rw [hf] at h2
          exact Option.noConfusion h2
        | some inner2 =>
          rw [hf] at h2
          have hm' : mapInsert m p (.obj inner2) = m' := Option.some.inj h2
          rw [insertNestedParts_of_flat (p2 :: rest) inner inner2 v (by simp) hf,
            hm']
      | null => exact Option.noConfusion h
      | bool b => exact Option.noConfusion h
      | num x => exact Option.noConfusion h
      | str s => exact Option.noConfusion h
      | arr a => exact Option.noConfusion h

/-- Folding `insert_nested` over joined good paths follows
`insertPathsFold` step by step wherever the latter succeeds. -/
theorem insertKeysFold_of_paths :
    ∀ (P : List (List String × Json)) (m m' : List (String × Json)),
      (∀ q ∈ P, q.1 ≠ [] ∧ ∀ k ∈ q.1, goodKey k = true) →
      insertPathsFold P m = some m' →
      insertKeysFold (P.map (fun q => (joinDot q.1, q.2))) (.obj m) = .obj m'
  | [], m, m', _, h => by
    have h2 : m = m' := Option.some.inj h
    rw [h2]
    rfl
  | (pth, v) :: rest, m, m', hg, h => by
    obtain ⟨hne, hgood⟩ := hg (pth, v) (by simp)
    have hstep : insertPathsFold ((pth, v) :: rest) m =
        match insertFlatParts m pth v with
        | none => none
        | some m2 => insertPathsFold rest m2 := rfl
    rw [hstep] at h
    cases hf : insertFlatParts m pth v with
    | none =>
      rw [hf] at h
      exact Option.noConfusion h
    | some m2 =>
      rw [hf] at h
      have hK : insertKeysFold (((pth, v) :: rest).map
          (fun q => (joinDot q.1, q.2))) (.obj m) =
          insertKeysFold (rest.map (fun q => (joinDot q.1, q.2)))
            (insert_nested (.obj m) (joinDot pth) v) := rfl
      rw [hK]
      have hcn : insert_nested (.obj m) (joinDot pth) v = .obj m2 := by
        unfold insert_nested
        rw [splitDot_joinDot pth hne hgood]
        exact insertNestedParts_of_flat pth m m2 v hne hf
      rw [hcn]
      exact insertKeysFold_of_paths rest m2 m'
        (fun q hq => hg q (List.mem_cons_of_mem _ hq)) h

/-- Whatever decisions the loop takes, a successful run's result is the
fold of `insert_nested` over the target keys in order, one value per key,
each value either `null` or retrieved from the flat source. -/
theorem processTargets_result (th : ℝ) (fs : List (String × Json))
    (sk : List String) (se te : List (List ℝ)) :
    ∀ (tks : List (ℕ × String)) (transformed : Json) (used : List String)
      (out : Json × List String),
      processTargets th fs sk se te tks transformed used = some out →
      ∃ vs : List Json,
        out.1 = insertKeysFold ((tks.map Prod.snd).zip vs) transformed ∧
        vs.length = tks.length ∧
        ∀ v ∈ vs, v = Json.null ∨ ∃ s, retrieveValue fs s = some v
  | [], transformed, used, out, h => by
    simp only [processTargets, Option.some.injEq] at h
    refine ⟨[], ?_, rfl, by simp⟩
    rw [← h]
    rfl
  | (tidx, tkey) :: rest, transformed, used, out, h => by
    by_cases hidx : tidx < te.length
    · simp only [processTargets, hidx, if_true] at h
      cases hfm : find_closest_match th (te.getD tidx []) se with
      | none =>
        rw [hfm] at h
        obtain ⟨vs, hv, hl, hvals⟩ := processTargets_result th fs sk se te rest
          (insert_nested transformed tkey .null) used out h
        refine ⟨Json.null :: vs, hv, by simp [hl], ?_⟩
        intro v hvm
        rcases List.mem_cons.mp hvm with h1 | h2
        · exact Or.inl h1
        · exact hvals v h2
      | some idx =>
        rw [hfm] at h
        by_cases hu : sk.getD idx "" ∈ used
        · simp only [hu, if_true] at h
          obtain ⟨vs, hv, hl, hvals⟩ := processTargets_result th fs sk se te rest
            (insert_nested transformed tkey .null) used out h
          refine ⟨Json.null :: vs, hv, by simp [hl], ?_⟩
          intro v hvm
          rcases List.mem_cons.mp hvm with h1 | h2
          · exact Or.inl h1
          · exact hvals v h2
        · simp only [hu, if_false] at h
          cases hr : retrieveValue fs (sk.getD idx "") with
          | none =>
            rw [hr] at h
            exact Option.noConfusion h
          | some v0 =>
            rw [hr] at h
            obtain ⟨vs, hv, hl, hvals⟩ := processTargets_result th fs sk se te
              rest (insert_nested transformed tkey v0)
              (sk.getD idx "" :: used) out h
            refine ⟨v0 :: vs, hv, by simp [hl], ?_⟩
            intro v hvm
            rcases List.mem_cons.mp hvm with h1 | h2
            · exact Or.inr ⟨sk.getD idx "", h1 ▸ hr⟩
            · exact hvals v h2
    · simp only [processTargets, hidx, if_false] at h
      obtain ⟨vs, hv, hl, hvals⟩ := processTargets_result th fs sk se te rest
        (insert_nested transformed tkey .null) used out h
      refine ⟨Json.null :: vs, hv, by simp [hl], ?_⟩
      intro v hvm
      rcases List.mem_cons.mp hvm with h1 | h2
      · exact Or.inl h1
      · exact hvals v h2

theorem map_lookup_zip :
    ∀ (L : List (List String × Json)) (vs : List Json),
      vs.length = L.length → (L.map Prod.fst).Nodup →
      L.map (fun q => (q.1,
          (pathLookup ((L.map Prod.fst).zip vs) q.1).getD q.2)) =
        (L.map Prod.fst).zip vs
  | [], [], _, _ => rfl
  | [], v :: vs, hlen, _ => by simp at hlen
  | q0 :: L', [], hlen, _ => by simp at hlen
  | q0 :: L', v0 :: vs', hlen, hnd => by
    have hlen' : vs'.length = L'.length := by
      simp only [List.length_cons] at hlen
      omega
    have hcons := List.nodup_cons.mp hnd
    have hzip : ((q0 :: L').map Prod.fst).zip (v0 :: vs') =
        (q0.1, v0) :: (L'.map Prod.fst).zip vs' := rfl
    rw [hzip, List.map_cons]
    congr 1
    · simp [pathLookup]
    · have hptw : ∀ q ∈ L', (fun q => (q.1, (pathLookup ((q0.1, v0) ::
          (L'.map Prod.fst).zip vs') q.1).getD q.2)) q =
          (fun q => (q.1,
            (pathLookup ((L'.map Prod.fst).zip vs') q.1).getD q.2)) q := by
        intro q hq
        have hne : ¬(q.1 = q0.1) := by
          intro hx
          exact hcons.1 (hx ▸ List.mem_map_of_mem Prod.fst hq)
        simp only [pathLookup, hne, if_false]
      rw [List.map_congr_left hptw]
      exact map_lookup_zip L' vs' hlen' hcons.2

theorem pathLookup_zip_mem :
    ∀ (ps : List (List String)) (vs : List Json) (x : List String),
      x ∈ ps → vs.length = ps.length →
      ∃ v ∈ vs, pathLookup (ps.zip vs) x = some v
  | [], _, x, hx, _ => absurd hx (by simp)
  | p :: ps', [], x, hx, hlen => by simp at hlen
  | p :: ps', v :: vs', x, hx, hlen => by
    by_cases hxp : x = p
    · exact ⟨v, by simp, by simp [List.zip_cons_cons, pathLookup, hxp]⟩
    · have hx' : x ∈ ps' := by
        rcases List.mem_cons.mp hx with h1 | h2
        · exact absurd h1 hxp
        · exact h2
      have hlen' : vs'.length = ps'.length := by
        simp only [List.length_cons] at hlen
        omega
      obtain ⟨w, hw, hl⟩ := pathLookup_zip_mem ps' vs' x hx' hlen'
      refine ⟨w, by simp [hw], ?_⟩
      simp only [List.zip_cons_cons, pathLookup, hxp, if_false]
      exact hl

/-- Folding `insert_nested` over the joined leaf paths of a well-formed
member list, with one value per leaf in order, rebuilds the member list's
object structure exactly, each leaf replaced by its value. -/
theorem insertKeysFold_leaves (ms : List (String × Json))
    (h : WFmembers ms = true) (vs : List Json)
    (hlen : vs.length = (leavesMembers ms).length) :
    ∃ g : List String → Json → Json,
      insertKeysFold ((((leavesMembers ms).map Prod.fst).map joinDot).zip vs)
          (.obj []) = .obj (mapLeavesMembers g ms) ∧
      ∀ q ∈ leavesMembers ms, g q.1 q.2 ∈ vs := by
  have hmap := map_lookup_zip (leavesMembers ms) vs hlen
    (leavesMembers_paths_nodup ms h)
  have hmap' : (leavesMembers ms).map (fun q => (q.1,
      (fun p x => (pathLookup (((leavesMembers ms).map Prod.fst).zip vs) p).getD x)
        q.1 q.2)) = ((leavesMembers ms).map Prod.fst).zip vs := hmap
  have hu := unflatten_members ms h
    (fun p x => (pathLookup (((leavesMembers ms).map Prod.fst).zip vs) p).getD x)
    [] (by simp)
  rw [hmap', List.nil_append] at hu
  have hgood : ∀ q ∈ ((leavesMembers ms).map Prod.fst).zip vs,
      q.1 ≠ [] ∧ ∀ k ∈ q.1, goodKey k = true := by
    intro q hq
    obtain ⟨x, xv⟩ := q
    have h1 : x ∈ (leavesMembers ms).map Prod.fst := (List.mem_zip hq).1
    simp only [List.mem_map] at h1
    obtain ⟨q0, hq0, hq0x⟩ := h1
    constructor
    · show x ≠ []
      rw [← hq0x]
      exact leavesMembers_path_ne_nil hq0
    · intro k hk
      show goodKey k = true
      have hk' : k ∈ q0.1 := by
        rw [hq0x]
        exact hk
      exact leavesMembers_good ms h q0 hq0 k hk'
  have hkf := insertKeysFold_of_paths (((leavesMembers ms).map Prod.fst).zip vs)
    [] (mapLeavesMembers
      (fun p x => (pathLookup (((leavesMembers ms).map Prod.fst).zip vs) p).getD x)
      ms) hgood hu
  refine ⟨fun p x =>
    (pathLookup (((leavesMembers ms).map Prod.fst).zip vs) p).getD x, ?_, ?_⟩
  · rw [List.zip_map_left]
    exact hkf
  · intro q hq
    have hlen' : vs.length = ((leavesMembers ms).map Prod.fst).length := by
      rw [List.length_map]
      exact hlen
    obtain ⟨v, hv, hl⟩ := pathLookup_zip_mem ((leavesMembers ms).map Prod.fst) vs
      q.1 (List.mem_map_of_mem Prod.fst hq) hlen'
    show (pathLookup (((leavesMembers ms).map Prod.fst).zip vs) q.1).getD q.2 ∈ vs
    rw [hl]
    simpa using hv

/-- C7: for a well-formed target (object root, nonempty nested objects,
nonempty dot-free keys) a successful `shapeshift` run's result is the
target with every leaf replaced — same nested object structure, same leaf
paths — each leaf set to `null` or to a value retrieved from the flat
source. As stated over all target values the claim fails: a non-object
target (see the counterexample) yields a result whose leaf paths differ
from the target's. -/
theorem C7_result_shaped_like_target (threshold : ℝ) (src tgt : Json)
    (out : ShapeshiftOutput) (hWF : WFroot tgt = true)
    (h : shapeshift threshold src tgt = some out) :
    ∃ g : List String → Json → Json,
      out.result = mapLeavesJ g tgt ∧
      ∀ q ∈ leavesOf tgt, g q.1 q.2 = Json.null ∨
        ∃ s, retrieveValue (flatten_object src) s = some (g q.1 q.2) := by
  rcases tgt with _ | b | x | s | a | tms
  · exact Bool.noConfusion hWF
  · exact Bool.noConfusion hWF
  · exact Bool.noConfusion hWF
  · exact Bool.noConfusion hWF
  · exact Bool.noConfusion hWF
  · have htms : WFmembers tms = true := hWF
    simp only [shapeshift] at h
    cases hp : processTargets threshold (flatten_object src)
        ((flatten_object src).map Prod.fst)
        (((flatten_object src).map Prod.fst).map get_embeddings)
        (((flatten_object (Json.obj tms)).map Prod.fst).map get_embeddings)
        (((flatten_object (Json.obj tms)).map Prod.fst).enum)
        (.obj []) [] with
    | none =>
      rw [hp] at h
      exact Option.noConfusion h
    | some p =>
      obtain ⟨tf, us⟩ := p
      rw [hp] at h
      have hout : (⟨tf, (flatten_object src).map Prod.fst,
          (flatten_object (Json.obj tms)).map Prod.fst,
          ((flatten_object src).map Prod.fst).map get_embeddings,
          ((flatten_object (Json.obj tms)).map Prod.fst).map get_embeddings⟩ :
            ShapeshiftOutput) = out := Option.some.inj h
      obtain ⟨vs, hv, hlenv, hvals⟩ := processTargets_result threshold
        (flatten_object src) ((flatten_object src).map Prod.fst)
        (((flatten_object src).map Prod.fst).map get_embeddings)
        (((flatten_object (Json.obj tms)).map Prod.fst).map get_embeddings)
        (((flatten_object (Json.obj tms)).map Prod.fst).enum)
        (.obj []) [] (tf, us) hp
      have hlen2 : vs.length = (leavesMembers tms).length := by
        rw [hlenv, List.enum_length, List.length_map, flatten_object_eq htms,
          List.length_map]
      obtain ⟨g, hg1, hg2⟩ := insertKeysFold_leaves tms htms vs hlen2
      refine ⟨g, ?_, ?_⟩
      · rw [← hout]
        show tf = mapLeavesJ g (Json.obj tms)
        have hv' : tf = insertKeysFold
            ((((((flatten_object (Json.obj tms)).map Prod.fst).enum).map
              Prod.snd)).zip vs) (Json.obj []) := hv
        have henum2 : (((flatten_object (Json.obj tms)).map Prod.fst).enum).map
            Prod.snd = (flatten_object (Json.obj tms)).map Prod.fst :=
          List.enumFrom_map_snd 0 _
        have hkeys : (flatten_object (Json.obj tms)).map Prod.fst =
            ((leavesMembers tms).map Prod.fst).map joinDot := by
          rw [flatten_object_eq htms, List.map_map, List.map_map]
          rfl
        rw [hv', henum2, hkeys, hg1]
        rfl
      · intro q hq
        exact hvals _ (hg2 q hq)

theorem C7_result_shaped_like_target_witness :
    WFroot (.obj [("full_name", .str ""),
        ("location", .obj [("city", .str ""), ("country", .str "")]),
        ("years_old", .num 0)]) = true ∧
    ∃ g : List String → Json → Json,
      (ShapeshiftOutput.mk
          (.obj [("full_name", .str "John Doe"),
                 ("location", .obj [("city", .str "New York"),
                                    ("country", .null)]),
                 ("years_old", .num 30)])
          ["age", "city", "name"]
          ["full_name", "location.city", "location.country", "years_old"]
          [[0, 0.9, 0.1, 0, 0], [0, 0, 0.9, 0.1, 0], [0.9, 0.1, 0, 0, 0]]
          [[0.9, 0.1, 0, 0, 0], [0, 0, 0.9, 0.1, 0], [0, 0, 0.1, 0.9, 0],
           [0, 0.9, 0.1, 0, 0]]).result =
        mapLeavesJ g (.obj [("full_name", .str ""),
          ("location", .obj [("city", .str ""), ("country", .str "")]),
          ("years_old", .num 0)]) ∧
      ∀ q ∈ leavesOf (.obj [("full_name", .str ""),
          ("location", .obj [("city", .str ""), ("country", .str "")]),
          ("years_old", .num 0)]),
        g q.1 q.2 = Json.null ∨
          ∃ s, retrieveValue (flatten_object
            (.obj [("age", .num 30), ("city", .str "New York"),
                   ("name", .str "John Doe")])) s = some (g q.1 q.2) :=
  ⟨by decide, C7_result_shaped_like_target 0.95 _ _ _ (by decide)
    shapeshift_scenario_eval⟩

/-- C7 counterexample to the claim as stated over all target values: with
a scalar target the run succeeds but the result is an object keyed by `""`
— its single leaf path is `[""]` while the target's is `[]`, so the result
is not shaped like the target. -/
theorem C7_result_shape_cex :
    shapeshift 1 (.obj []) (Json.num 5) =
        some ⟨.obj [("", .null)], [], [""], [],
              [[0.2, 0.2, 0.2, 0.2, 0.2]]⟩ ∧
      (leavesOf (Json.obj [("", Json.null)])).map Prod.fst = [[""]] ∧
      (leavesOf (Json.num 5)).map Prod.fst = [([] : List String)] := by
  refine ⟨?_, by decide, by decide⟩
  have hfs : flatten_object (.obj []) = [] := by decide
  have hft : flatten_object (Json.num 5) = [("", .num 5)] := by decide
  have hemb : get_embeddings "" = [0.2, 0.2, 0.2, 0.2, 0.2] := by
    simp [get_embeddings]
  have henum : (([""] : List String)).enum = [(0, "")] := by decide
  have hfe : find_closest_match 1 [(0.2 : ℝ), 0.2, 0.2, 0.2, 0.2] [] =
      none := rfl
  have hins : insert_nested (.obj []) "" .null = .obj [("", .null)] := by
    decide
  have hL : ([[0.2, 0.2, 0.2, 0.2, 0.2]] : List (List ℝ)).length = 1 := rfl
  have hW0 : ([[0.2, 0.2, 0.2, 0.2, 0.2]] : List (List ℝ)).getD 0 [] =
      [0.2, 0.2, 0.2, 0.2, 0.2] := rfl
  have ht0 : (0 : ℕ) < 1 := Nat.one_pos
  simp only [shapeshift, hfs, hft, List.map, hemb, henum, processTargets,
    hL, ht0, if_true, hW0, hfe, hins]

example : splitDot "a.b" = ["a", "b"] := by decide
example : splitDot "" = [""] := by decide
example : splitDot "." = ["", ""] := by decide
example :
    flatten_object (.obj [("a", .obj [("b", .num 1)]), ("c", .num 2)]) =
      [("a.b", .num 1), ("c", .num 2)] := by decide
example :
    unflatten_object [("a.b", .num 1), ("c", .num 2)] =
      some (.obj [("a", .obj [("b", .num 1)]), ("c", .num 2)]) := by decide
